import Mathlib

/-!
Verification of the presentation engine in `static/js/recap.js`
(Pinewood-Tech-Club/one-recap).

The JavaScript source is shallowly embedded: JS numbers are modelled as
exact rationals (`ℚ`), `Math.floor`/`Math.round` as explicit floors,
strings as Lean `String`/`List Char`, and `Math.random()` as an explicit
stream `ℕ → ℚ` of values in `[0,1)` threaded through the state.
-/

/-- `Math.floor` on an exact rational. -/
def jsFloor (q : ℚ) : ℤ := ⌊q⌋

/-- `Math.round`: rounds half-way cases toward positive infinity,
which is `⌊q + 1/2⌋`. -/
def jsRound (q : ℚ) : ℤ := ⌊q + 1/2⌋

/-- JS `a % b`.  JS remainder takes the sign of the dividend; every call
site in `recap.js` has a non-negative dividend and positive divisor
(hue values shifted by `+360`), where JS `%` agrees with this
floor-based remainder. -/
def jsMod (a b : ℚ) : ℚ := a - b * ⌊a / b⌋

/-- `Math.min(a, Math.max(b, c))`-style helpers are written with
`min`/`max` directly; this is JS `Math.min`/`Math.max` on two exact
rationals. -/
def jsClamp (x lo hi : ℚ) : ℚ := min (max x lo) hi

/- ## Color conversion utilities (`hexToRGB`, `rgbToHSV`, `hsvToRGB`,
`hexToHSV`, `hsvToHex`, `blendColorsHSV`) -/

/-- Character class `[a-f\d]` with the `i` flag: ASCII `0-9` (48–57),
`a-f` (97–102), `A-F` (65–70). -/
def isHexChar (c : Char) : Bool :=
  (48 ≤ c.toNat ∧ c.toNat ≤ 57) ∨ (97 ≤ c.toNat ∧ c.toNat ≤ 102) ∨
    (65 ≤ c.toNat ∧ c.toNat ≤ 70)

/-- Value of one hex digit, as `parseInt(·, 16)` assigns it
(case-insensitive); non-hex characters are irrelevant at call sites. -/
def hexCharVal (c : Char) : ℕ :=
  if 48 ≤ c.toNat ∧ c.toNat ≤ 57 then c.toNat - 48
  else if 97 ≤ c.toNat ∧ c.toNat ≤ 102 then c.toNat - 87
  else if 65 ≤ c.toNat ∧ c.toNat ≤ 70 then c.toNat - 55
  else 0

/-- The `^#?` part of both hex regexes: an optional leading `#`. -/
def stripHash : List Char → List Char
  | '#' :: t => t
  | l => l

/-- A 24-bit RGB color as produced by `hexToRGB`/`hsvToRGB`
(components are mathematical integers; the code keeps them in
`[0,255]`). -/
structure RGB where
  r : ℤ
  g : ℤ
  b : ℤ
  deriving DecidableEq, Repr

/-- Does the string match the short regex
`/^#?([a-f\d])([a-f\d])([a-f\d])$/i`? -/
def matchesShortHex (s : String) : Bool :=
  match stripHash s.toList with
  | [a, b, c] => isHexChar a && isHexChar b && isHexChar c
  | _ => false

/-- Does the string match the full regex
`/^#?([a-f\d]{2})([a-f\d]{2})([a-f\d]{2})$/i`? -/
def matchesFullHex (s : String) : Bool :=
  match stripHash s.toList with
  | [a, b, c, d, e, f] =>
      isHexChar a && isHexChar b && isHexChar c && isHexChar d &&
        isHexChar e && isHexChar f
  | _ => false

/-- A string accepted by `hexToRGB` (either regex). -/
def validHexColor (s : String) : Bool := matchesShortHex s || matchesFullHex s

/-- `hexToRGB(hex)`: tries the 3-digit regex (doubling each digit,
`parseInt(d + d, 16) = 17·val d`), then the 6-digit regex, and falls
back to black `{r: 0, g: 0, b: 0}`.  The length of the body after the
optional `#` decides which regex can match, so matching on the stripped
list is equivalent to trying the regexes in order. -/
def hexToRGB (s : String) : RGB :=
  match stripHash s.toList with
  | [a, b, c] =>
      if isHexChar a && isHexChar b && isHexChar c then
        ⟨17 * hexCharVal a, 17 * hexCharVal b, 17 * hexCharVal c⟩
      else ⟨0, 0, 0⟩
  | [a, b, c, d, e, f] =>
      if isHexChar a && isHexChar b && isHexChar c && isHexChar d &&
          isHexChar e && isHexChar f then
        ⟨16 * hexCharVal a + hexCharVal b, 16 * hexCharVal c + hexCharVal d,
          16 * hexCharVal e + hexCharVal f⟩
      else ⟨0, 0, 0⟩
  | _ => ⟨0, 0, 0⟩

/-- HSV triple as used by the code: `h ∈ [0,360)`, `s, v ∈ [0,100]`. -/
structure HSV where
  h : ℚ
  s : ℚ
  v : ℚ
  deriving DecidableEq, Repr

/-- `rgbToHSV(r, g, b)`.  The JS `switch (max)` matches `case r` first,
then `case g`, then `case b`, which is the if-chain below. -/
def rgbToHSV (r g b : ℚ) : HSV :=
  let r' := r / 255
  let g' := g / 255
  let b' := b / 255
  let mx := max r' (max g' b')
  let mn := min r' (min g' b')
  let d := mx - mn
  let s := if mx = 0 then 0 else d / mx
  let v := mx
  let h : ℚ :=
    if mx ≠ mn then
      if mx = r' then ((g' - b') / d + (if g' < b' then 6 else 0)) / 6
      else if mx = g' then ((b' - r') / d + 2) / 6
      else ((r' - g') / d + 4) / 6
    else 0
  ⟨h * 360, s * 100, v * 100⟩

/-- The body of `hsvToRGB(h, s, v)` before the final
`Math.round(x * 255)`, returning the `(r, g, b)` triple already scaled
by 255.  `i % 6` is non-negative at every call site (`h ∈ [0,360)`
gives `i ∈ [0,5]`), where JS `%` agrees with `Int.emod`. -/
def hsvToRGBpre (h s v : ℚ) : ℚ × ℚ × ℚ :=
  let h' := h / 360
  let s' := s / 100
  let v' := v / 100
  let i : ℤ := ⌊h' * 6⌋
  let f := h' * 6 - i
  let p := v' * (1 - s')
  let q := v' * (1 - f * s')
  let t := v' * (1 - (1 - f) * s')
  let m := i % 6
  let rgb : ℚ × ℚ × ℚ :=
    if m = 0 then (v', t, p)
    else if m = 1 then (q, v', p)
    else if m = 2 then (p, v', t)
    else if m = 3 then (p, q, v')
    else if m = 4 then (t, p, v')
    else (v', p, q)
  (rgb.1 * 255, rgb.2.1 * 255, rgb.2.2 * 255)

/-- `hsvToRGB(h, s, v)`: the pre-rounding triple with `Math.round`
applied to each component. -/
def hsvToRGB (h s v : ℚ) : RGB :=
  let pre := hsvToRGBpre h s v
  ⟨jsRound pre.1, jsRound pre.2.1, jsRound pre.2.2⟩

/-- `hexToHSV(hex)`. -/
def hexToHSV (s : String) : HSV :=
  let c := hexToRGB s
  rgbToHSV c.r c.g c.b

/-- Hex digits in the order `Number.prototype.toString(16)` uses. -/
def hexDigitChar (n : ℕ) : Char :=
  if n < 10 then Char.ofNat (48 + n) else Char.ofNat (87 + n)

/-- Digit recursion behind `natToHexChars`, with structural fuel so
that the kernel can evaluate it (`fuel > n` always suffices, since
`n / 16 < fuel - 1` whenever `16 ≤ n < fuel`). -/
def natToHexCharsAux : ℕ → ℕ → List Char
  | 0, _ => []
  | fuel + 1, n =>
      if n < 16 then [hexDigitChar n]
      else natToHexCharsAux fuel (n / 16) ++ [hexDigitChar (n % 16)]

/-- `n.toString(16)` for a natural number: lowercase hex digits, most
significant first, no leading zeros (except for `n < 16`). -/
def natToHexChars (n : ℕ) : List Char := natToHexCharsAux (n + 1) n

/-- `hsvToHex(hsv)`: the JS trick
`((1 << 24) + (r << 16) + (g << 8) + b).toString(16).slice(1)`.  For
components in `[0,255]` the 32-bit shifts coincide with the products
below, and `.toNat` is exact. -/
def hsvToHex (hsv : HSV) : String :=
  let c := hsvToRGB hsv.h hsv.s hsv.v
  String.mk
    ('#' :: (natToHexChars ((2 ^ 24 + c.r * 65536 + c.g * 256 + c.b).toNat)).drop 1)

/-- The hue delta of `blendColorsHSV`, moved onto the shortest arc. -/
def hueDelta (h1 h2 : ℚ) : ℚ :=
  let d := h2 - h1
  if 180 < d then d - 360 else if d < -180 then d + 360 else d

/-- The blended HSV triple computed inside `blendColorsHSV` before the
final `hsvToHex`. -/
def blendedHSV (hex1 hex2 : String) (ratio : ℚ) : HSV :=
  let hsv1 := hexToHSV hex1
  let hsv2 := hexToHSV hex2
  let hd := hueDelta hsv1.h hsv2.h
  ⟨jsMod (hsv1.h + hd * ratio + 360) 360,
    hsv1.s + (hsv2.s - hsv1.s) * ratio,
    hsv1.v + (hsv2.v - hsv1.v) * ratio⟩

/-- `blendColorsHSV(hex1, hex2, ratio)`. -/
def blendColorsHSV (hex1 hex2 : String) (ratio : ℚ) : String :=
  hsvToHex (blendedHSV hex1 hex2 ratio)

/- ## Variable substitution (`substituteVariables`) -/

/-- A resolved `DataRecord`: flat mapping of variable name to (string)
value; `lookup` returning `none` models `data[varName] === undefined`. -/
abbrev DataRecord := List (String × String)

/-- Character-level semantics of
`text.replace(/%\x7b([^\x7d]+)\x7d/g, ...)`: scan left to right; at
each `%` followed by an opening brace, the greedy `[^...]+` takes all
characters up to the first closing brace, which must exist and be
preceded by at least one character; on a match, substitute the looked-up
value, or keep the whole token verbatim when the name is absent; on a
mismatch, emit `%` and rescan from the next character. -/
def substAux (data : DataRecord) : List Char → List Char
  | [] => []
  | '%' :: '{' :: rest =>
      let name := rest.takeWhile (· ≠ '}')
      let after := rest.dropWhile (· ≠ '}')
      if name ≠ [] ∧ after ≠ [] then
        match data.lookup (String.mk name) with
        | some v => v.toList ++ substAux data after.tail
        | none => '%' :: '{' :: name ++ '}' :: substAux data after.tail
      else '%' :: substAux data ('{' :: rest)
  | c :: rest => c :: substAux data rest
  termination_by l => l.length
  decreasing_by
  all_goals
    simp only [List.length_cons, List.length_tail]
  all_goals
    try have h1 : (List.dropWhile (fun x => decide (x ≠ '}')) rest).length ≤
        rest.length :=
      List.Sublist.length_le (List.dropWhile_sublist _)
  all_goals omega

/-- `substituteVariables(text, data)` (the `typeof text !== 'string'`
guard is vacuous in this model, where `text` is always a string). -/
def substituteVariables (text : String) (data : DataRecord) : String :=
  String.mk (substAux data text.toList)

/-- Spec-side view for C9: a text splits into literal characters and
`%\x7bname\x7d` tokens. -/
inductive SubstPiece where
  | lit (c : Char)
  | tok (name : List Char)
  deriving DecidableEq, Repr

/-- Spec-side tokenizer for C9 (the claim's reading of the text as a
sequence of literal characters and substitution tokens). -/
def substTokensSpec : List Char → List SubstPiece
  | [] => []
  | '%' :: '{' :: rest =>
      let name := rest.takeWhile (· ≠ '}')
      let after := rest.dropWhile (· ≠ '}')
      if name ≠ [] ∧ after ≠ [] then
        SubstPiece.tok name :: substTokensSpec after.tail
      else SubstPiece.lit '%' :: substTokensSpec ('{' :: rest)
  | c :: rest => SubstPiece.lit c :: substTokensSpec rest
  termination_by l => l.length
  decreasing_by
  all_goals
    simp only [List.length_cons, List.length_tail]
  all_goals
    try have h1 : (List.dropWhile (fun x => decide (x ≠ '}')) rest).length ≤
        rest.length :=
      List.Sublist.length_le (List.dropWhile_sublist _)
  all_goals omega

/-- Spec-side rendering for C9: a token whose name exists in the record
is replaced by the record's value; a token whose name is absent stays
verbatim; literal characters pass through. -/
def renderPieceSpec (data : DataRecord) : SubstPiece → List Char
  | SubstPiece.lit c => [c]
  | SubstPiece.tok name =>
      match data.lookup (String.mk name) with
      | some v => v.toList
      | none => '%' :: '{' :: (name ++ ['}'])

/- ## CountUp (`runCountUpEffect`) -/

/-- ASCII decimal digit (`\d`). -/
def isDigitChar (c : Char) : Bool := 48 ≤ c.toNat ∧ c.toNat ≤ 57

/-- Character class `[0-9.-]` (the complement of group 1 of the
extraction regex `/^([^0-9.-]*)(-?\d*\.?\d+)(.*)$/`). -/
def isNumSpecial (c : Char) : Bool := isDigitChar c || c = '.' || c = '-'

/-- Greedy, anchored match of `-?\d*\.?\d+` at the head of the list,
returning the matched characters and the rest.  Backtracking semantics:
an optional minus sign, then a maximal digit run; a fractional part
`.digits` is included only when a dot followed by at least one digit
comes next; the match fails when no digits were found either way
(backtracking over `-?` cannot help because the group must start with a
character in `[0-9.-]`). -/
def matchNumber (l : List Char) : Option (List Char × List Char) :=
  let negAndRest : List Char × List Char :=
    match l with
    | '-' :: t => (['-'], t)
    | _ => ([], l)
  let neg := negAndRest.1
  let l1 := negAndRest.2
  let ip := l1.takeWhile isDigitChar
  let l2 := l1.dropWhile isDigitChar
  match l2 with
  | '.' :: t =>
      let fr := t.takeWhile isDigitChar
      if fr ≠ [] then some (neg ++ ip ++ '.' :: fr, t.dropWhile isDigitChar)
      else if ip ≠ [] then some (neg ++ ip, l2)
      else none
  | _ => if ip ≠ [] then some (neg ++ ip, l2) else none

/-- Digit run to a natural number. -/
def digitsToNat (l : List Char) : ℕ := l.foldl (fun a c => 10 * a + (c.toNat - 48)) 0

/-- Exact value of a matched number of shape `digits(.digits)?`. -/
def ratOfNumMag (t : List Char) : ℚ :=
  let ip := t.takeWhile isDigitChar
  let rest := t.dropWhile isDigitChar
  match rest with
  | '.' :: fr => (digitsToNat ip : ℚ) + (digitsToNat fr : ℚ) / 10 ^ fr.length
  | _ => (digitsToNat ip : ℚ)

/-- `parseFloat(numStr)` for a string matched by `-?\d*\.?\d+`
(never `NaN`, so `|| 0` only normalizes `-0`, which `ℚ` has not). -/
def ratOfNumChars (l : List Char) : ℚ :=
  match l with
  | '-' :: t => -(ratOfNumMag t)
  | t => ratOfNumMag t

/-- `numStr.split('.')[1] || ''` length: the number of characters after
the first dot. -/
def numDecimals (num : List Char) : ℕ :=
  match num.dropWhile (· ≠ '.') with
  | _ :: fr => fr.length
  | [] => 0

/-- `parseFloat(text) || 0` in the fallback branch of
`parseNumberParts` (the extraction regex did not match): skip leading
whitespace, accept an optional sign and `digits(.digits)?`; anything
else (including exponent forms, which no slide data produces) gives 0
(`NaN || 0`). -/
def jsParseFloatOr0 (l : List Char) : ℚ :=
  let t := l.dropWhile (fun c =>
    c.toNat = 32 ∨ c.toNat = 9 ∨ c.toNat = 10 ∨ c.toNat = 13)
  match t with
  | '+' :: r => ((matchNumber r).map (fun m => ratOfNumChars m.1)).getD 0
  | _ => ((matchNumber t).map (fun m => ratOfNumChars m.1)).getD 0

/-- Result of `parseNumberParts` inside `runCountUpEffect`.  The source
field names `prefix`/`suffix` are Lean keywords and are rendered as
`pfx`/`sfx`. -/
structure NumberParts where
  value : ℚ
  pfx : String
  sfx : String
  decimals : ℕ
  deriving DecidableEq, Repr

/-- `parseNumberParts(raw)`: substitute variables into
`String(raw ?? 0)`, split it as `^([^0-9.-]*)(-?\d*\.?\d+)(.*)$`
(group 1 is necessarily the maximal run of characters outside
`[0-9.-]`, since group 2 must start with a character inside it), else
fall back to `parseFloat(text) || 0` with empty prefix/suffix and 0
decimals. -/
def parseNumberParts (data : DataRecord) (raw : Option String) : NumberParts :=
  let text := substituteVariables (raw.getD "0") data
  let l := text.toList
  let p := l.takeWhile (fun c => !isNumSpecial c)
  let rest := l.dropWhile (fun c => !isNumSpecial c)
  match matchNumber rest with
  | some (num, suf) => ⟨ratOfNumChars num, String.mk p, String.mk suf, numDecimals num⟩
  | none => ⟨jsParseFloatOr0 l, "", "", 0⟩

/-- `stepPrecision(val)`: 0 for a missing value, else the number of
characters after the first `.` of `String(val)` (via `indexOf`). -/
def stepPrecision (v : Option String) : ℕ :=
  match v with
  | none => 0
  | some s =>
      let l := s.toList
      if '.' ∈ l then l.length - (l.takeWhile (· ≠ '.')).length - 1 else 0

/-- The `effect` object consumed by `runCountUpEffect` (`prefix` and
`suffix` renamed to `pfx`/`sfx`, see `NumberParts`). -/
structure CountUpEffect where
  start_num : Option String
  end_num : Option String
  step : Option String
  pfx : Option String
  sfx : Option String

/-- `precision = Math.max(startParts.decimals, endParts.decimals,
stepPrecision(effect.step))`. -/
def countUpPrecision (e : CountUpEffect) (data : DataRecord) : ℕ :=
  max (parseNumberParts data e.start_num).decimals
    (max (parseNumberParts data e.end_num).decimals (stepPrecision e.step))

/-- `effect.prefix ?? startParts.prefix ?? endParts.prefix ?? ''`:
`startParts.prefix` is always a string (possibly empty), so the chain
stops there when `effect.prefix` is nullish. -/
def countUpPfx (e : CountUpEffect) (data : DataRecord) : String :=
  e.pfx.getD (parseNumberParts data e.start_num).pfx

/-- `effect.suffix ?? endParts.suffix ?? startParts.suffix ?? ''`. -/
def countUpSfx (e : CountUpEffect) (data : DataRecord) : String :=
  e.sfx.getD (parseNumberParts data e.end_num).sfx

/-- Digit recursion behind `natDecChars`, with structural fuel so that
the kernel can evaluate it (`fuel > n` always suffices). -/
def natDecCharsAux : ℕ → ℕ → List Char
  | 0, _ => []
  | fuel + 1, n =>
      if n < 10 then [Char.ofNat (48 + n)]
      else natDecCharsAux fuel (n / 10) ++ [Char.ofNat (48 + n % 10)]

/-- Decimal digits of a natural number, most significant first. -/
def natDecChars (n : ℕ) : List Char := natDecCharsAux (n + 1) n

/-- `z.toString()` for an integer. -/
def intDecString (z : ℤ) : String :=
  if z < 0 then String.mk ('-' :: natDecChars z.natAbs)
  else String.mk (natDecChars z.toNat)

/-- `x.toFixed(p)` on exact rationals, following the ECMAScript
algorithm: extract the sign, pick the integer `n` with `n / 10^p`
closest to the magnitude (larger `n` on ties), and print `n` with a
decimal point inserted `p` digits from the right. -/
def jsToFixed (q : ℚ) (p : ℕ) : String :=
  let sign : String := if q < 0 then "-" else ""
  let n : ℕ := (⌊|q| * 10 ^ p + 1/2⌋).toNat
  if p = 0 then sign ++ String.mk (natDecChars n)
  else
    let fd := natDecChars (n % 10 ^ p)
    sign ++ String.mk (natDecChars (n / 10 ^ p)) ++ "." ++
      String.mk (List.replicate (p - fd.length) '0' ++ fd)

/-- The ease-out cubic used by all effects: `1 − (1−t)³`. -/
def easeOutCubic (t : ℚ) : ℚ := 1 - (1 - t) ^ 3

/-- One text write of `runCountUpEffect`'s `animate()` at a given
progress (`progress = min(elapsed/duration, 1)`):
`prefix + formatted(current) + suffix` where
`current = start + (end − start) · eased` and `formatted` is
`toFixed(precision)` for positive precision, else
`Math.round(·).toString()`. -/
def countUpFrameText (e : CountUpEffect) (data : DataRecord) (progress : ℚ) : String :=
  let startParts := parseNumberParts data e.start_num
  let endParts := parseNumberParts data e.end_num
  let precision := countUpPrecision e data
  let eased := easeOutCubic progress
  let current := startParts.value + (endParts.value - startParts.value) * eased
  let formatted :=
    if 0 < precision then jsToFixed current precision
    else intDecString (jsRound current)
  countUpPfx e data ++ formatted ++ countUpSfx e data

/-- The final displayed frame: the last write happens with
`progress = 1`. -/
def countUpFinalFrame (e : CountUpEffect) (data : DataRecord) : String :=
  countUpFrameText e data 1

/- ## CryptoReveal (`runCryptoRevealEffect` / `animateCryptoReveal`) -/

/-- `/[A-Za-z0-9]/`: ASCII letters and digits. -/
def isAlphanumericChar (c : Char) : Bool :=
  (65 ≤ c.toNat ∧ c.toNat ≤ 90) ∨ (97 ≤ c.toNat ∧ c.toNat ≤ 122) ∨
    (48 ≤ c.toNat ∧ c.toNat ≤ 57)

/-- `randomCharFor(targetChar)`: swap only alphanumerics for a random
glyph of the configured alphabet (`chars[Math.floor(Math.random() *
chars.length)]` with `r` the drawn random); punctuation, whitespace and
structure characters are preserved. -/
def randomCharFor (chars : List Char) (r : ℚ) (target : Char) : Char :=
  if isAlphanumericChar target then chars.getD (⌊r * chars.length⌋).toNat '?'
  else target

/-- `finalChars.map((ch) => randomCharFor(ch))` with the random stream
threaded: one `Math.random()` is drawn per alphanumeric target
character (the ternary is lazy), none for preserved characters. -/
def regenRandomChars (cryptoChars : List Char) (rand : ℕ → ℚ) :
    List Char → ℕ → List Char × ℕ
  | [], k => ([], k)
  | c :: rest, k =>
      if isAlphanumericChar c then
        let tl := regenRandomChars cryptoChars rand rest (k + 1)
        (randomCharFor cryptoChars (rand k) c :: tl.1, tl.2)
      else
        let tl := regenRandomChars cryptoChars rand rest k
        (c :: tl.1, tl.2)

/-- Static configuration of one `animateCryptoReveal` call: the target
text, its reveal duration, and its stagger delay. -/
structure CryptoField where
  finalChars : List Char
  duration : ℚ
  startDelay : ℚ

/-- Mutable per-field state of `animateCryptoReveal`'s closure:
`lastRevealCount`, `lastShuffleCounter`, and the current decoy array
`randomChars`. -/
structure CryptoFieldState where
  lastRevealCount : ℕ
  lastShuffleCounter : ℕ
  randomChars : List Char
  deriving DecidableEq, Repr

/-- Progress of a field at a given elapsed time:
`0` until the stagger delay has passed, then
`min((elapsed − startDelay) / duration, 1)`. -/
def cryptoProgress (f : CryptoField) (elapsed : ℚ) : ℚ :=
  if f.startDelay < elapsed then min ((elapsed - f.startDelay) / f.duration) 1
  else 0

/-- `revealCount = Math.floor(eased * textLength)`. -/
def cryptoRevealCount (f : CryptoField) (elapsed : ℚ) : ℕ :=
  (⌊easeOutCubic (cryptoProgress f elapsed) * f.finalChars.length⌋).toNat

/-- One `animate()` frame of `animateCryptoReveal` for one field:
computes the reveal count; bumps the shared `shuffleCounter` if this
field revealed a new character (`sharedState.triggerShuffle()`); then,
if the (possibly just bumped) shared counter is ahead of the field's
`lastShuffleCounter`, regenerates the decoys for all positions; finally
renders revealed positions from the target text and the rest from the
decoy array.  Returns (new field state, new shared counter, new random
stream position, displayed characters). -/
def animateCryptoRevealFrame (cryptoChars : List Char) (rand : ℕ → ℚ)
    (f : CryptoField) (st : CryptoFieldState) (shuffleCounter rctr : ℕ)
    (elapsed : ℚ) : CryptoFieldState × ℕ × ℕ × List Char :=
  let revealCount := cryptoRevealCount f elapsed
  let bumped :=
    if st.lastRevealCount < revealCount then (shuffleCounter + 1, revealCount)
    else (shuffleCounter, st.lastRevealCount)
  let sc1 := bumped.1
  let lrc := bumped.2
  let regened :=
    if st.lastShuffleCounter < sc1 then
      let fresh := regenRandomChars cryptoChars rand f.finalChars rctr
      (fresh.1, sc1, fresh.2)
    else (st.randomChars, st.lastShuffleCounter, rctr)
  let rc := regened.1
  let display := (List.range f.finalChars.length).map (fun i =>
    if i < revealCount then f.finalChars.getD i ' ' else rc.getD i ' ')
  (⟨lrc, regened.2.1, rc⟩, sc1, regened.2.2, display)

/-- `runCryptoRevealEffect`: every list item contributes a title field
with stagger delay `index · staggerDelay` and duration `itemDuration`,
and a subtitle field with duration `itemDuration · 0.7` and delay
`titleDelay + itemDuration · 0.3`.  All fields are started immediately
against one shared `shuffleCounter`. -/
def runCryptoRevealFields (itemDuration staggerDelay : ℚ)
    (items : List (List Char × List Char)) : List CryptoField :=
  (items.enum).foldr (fun pr acc =>
    let titleDelay := (pr.1 : ℚ) * staggerDelay
    ⟨pr.2.1, itemDuration, titleDelay⟩ ::
      ⟨pr.2.2, itemDuration * (7/10), titleDelay + itemDuration * (3/10)⟩ ::
        acc) []

/- ## Particle overlays (`startEmojiRain` / `animateEmojiRain`,
`startStarfield` / `animateStarfield`) -/

/-- One rain entity (the DOM node is omitted; `glyph` is
`el.textContent`). -/
structure Drop where
  glyph : Char
  x : ℚ
  y : ℚ
  speed : ℚ
  rot : ℚ
  rotSpeed : ℚ
  scale : ℚ
  deriving DecidableEq, Repr

/-- `dropCount = Math.max(30, Math.min(70, Math.floor(window.innerWidth
/ 18)))`. -/
def rainDropCount (width : ℚ) : ℤ := max 30 (min 70 ⌊width / 18⌋)

/-- One loop iteration of `startEmojiRain` seeding drop `i`; each
iteration draws 8 randoms in source order: glyph choice, scale, speed,
rot, rotSpeed, x, and two for y (`Math.random() < 0.55` then the
branch's magnitude). -/
def seedRainDrop (chars : List Char) (width height : ℚ) (rand : ℕ → ℚ)
    (i : ℕ) : Drop :=
  let k := 8 * i
  { glyph := chars.getD (⌊rand k * chars.length⌋).toNat '?'
    scale := 55/100 + rand (k + 1) * (11/10)
    speed := 160 + rand (k + 2) * 240
    rot := rand (k + 3) * 360
    rotSpeed := -70 + rand (k + 4) * 140
    x := rand (k + 5) * width
    y := if rand (k + 6) < 55/100 then rand (k + 7) * height
         else -(rand (k + 7)) * height * (3/5) }

/-- `startEmojiRain(emjString)`: with no usable glyphs the overlay is
hidden and no drops are seeded; otherwise a pool of `dropCount` drops
is created. -/
def startEmojiRain (chars : List Char) (width height : ℚ) (rand : ℕ → ℚ) :
    List Drop :=
  if chars = [] then []
  else (List.range (rainDropCount width).toNat).map
    (seedRainDrop chars width height rand)

/-- Per-drop step of `animateEmojiRain`: integrate `y` and `rot`; a drop
below `height + 200` is respawned above the viewport with fresh random
y, x, speed, rot and rotSpeed (5 draws, in source order), keeping its
glyph and scale.  Returns the updated drop and random stream
position. -/
def rainTickDrop (height width dt : ℚ) (rand : ℕ → ℚ) (k : ℕ) (d : Drop) :
    Drop × ℕ :=
  let y := d.y + d.speed * dt
  let rot := d.rot + d.rotSpeed * dt
  if height + 200 < y then
    ({ glyph := d.glyph
       y := -160 - rand k * (height * (3/5))
       x := rand (k + 1) * width
       speed := 140 + rand (k + 2) * 220
       rot := rand (k + 3) * 360
       rotSpeed := -60 + rand (k + 4) * 140
       scale := d.scale }, k + 5)
  else ({ d with y := y, rot := rot }, k)

/-- The `emojiDrops.forEach` body of one `animateEmojiRain` frame,
threading the random stream left to right. -/
def animateEmojiRainFrame (height width dt : ℚ) (rand : ℕ → ℚ) :
    List Drop → ℕ → List Drop × ℕ
  | [], k => ([], k)
  | d :: rest, k =>
      let hd := rainTickDrop height width dt rand k d
      let tl := animateEmojiRainFrame height width dt rand rest hd.2
      (hd.1 :: tl.1, tl.2)

/-- `n` frames of `animateEmojiRain`. -/
def rainFrames (height width dt : ℚ) (rand : ℕ → ℚ) :
    ℕ → List Drop × ℕ → List Drop × ℕ
  | 0, s => s
  | n + 1, s => rainFrames height width dt rand n
      (animateEmojiRainFrame height width dt rand s.1 s.2)

/-- One starfield entity. -/
structure StarDot where
  x : ℚ
  y : ℚ
  speed : ℚ
  twinkle : ℚ
  phase : ℚ
  baseOpacity : ℚ
  scale : ℚ
  deriving DecidableEq, Repr

/-- `count = Math.max(80, Math.min(160, Math.floor(window.innerWidth /
6)))`. -/
def starCount (width : ℚ) : ℤ := max 80 (min 160 ⌊width / 6⌋)

/-- One loop iteration of `startStarfield` seeding star `i`; 7 randoms
in source order: scale, x, y, speed, twinkle, baseOpacity, phase. -/
def seedStar (width height : ℚ) (rand : ℕ → ℚ) (i : ℕ) : StarDot :=
  let k := 7 * i
  { scale := 1/2 + rand k * (8/5)
    x := rand (k + 1) * width
    y := rand (k + 2) * height
    speed := 4 + rand (k + 3) * 22
    twinkle := 2 + rand (k + 4) * (7/2)
    baseOpacity := 35/100 + rand (k + 5) * (3/5)
    phase := rand (k + 6) * (2 * 3.14159265358979323846) }

/-- `startStarfield()`: a pool of `count` stars (π is irrational; the
model uses a fixed rational whose exact value no claim depends on). -/
def startStarfield (width height : ℚ) (rand : ℕ → ℚ) : List StarDot :=
  (List.range (starCount width).toNat).map (seedStar width height rand)

/-- Per-star step of `animateStarfield`: drift down, recycle to the top
(2 draws: y then x) when below `height + 10`, then advance the twinkle
phase. -/
def starTick (height width dt : ℚ) (rand : ℕ → ℚ) (k : ℕ) (s : StarDot) :
    StarDot × ℕ :=
  let y := s.y + s.speed * dt
  let recycled :=
    if height + 10 < y then
      ({ s with y := -10 - rand k * 40, x := rand (k + 1) * width }, k + 2)
    else ({ s with y := y }, k)
  ({ recycled.1 with phase := recycled.1.phase + s.twinkle * dt }, recycled.2)

/-- The `starParticles.forEach` body of one `animateStarfield` frame. -/
def animateStarfieldFrame (height width dt : ℚ) (rand : ℕ → ℚ) :
    List StarDot → ℕ → List StarDot × ℕ
  | [], k => ([], k)
  | s :: rest, k =>
      let hd := starTick height width dt rand k s
      let tl := animateStarfieldFrame height width dt rand rest hd.2
      (hd.1 :: tl.1, tl.2)

/-- `n` frames of `animateStarfield`. -/
def starFrames (height width dt : ℚ) (rand : ℕ → ℚ) :
    ℕ → List StarDot × ℕ → List StarDot × ℕ
  | 0, s => s
  | n + 1, s => starFrames height width dt rand n
      (animateStarfieldFrame height width dt rand s.1 s.2)

/- ## ScrollPositionTracker (`checkSlideChange`, `updatePickerLabel`,
`switchEmojiEffect`) -/

/-- The per-slide visibility array built by `checkSlideChange`:
`visibilities` starts as zeros, then `visibilities[currentIndex] = 1 −
clampedFraction` when `0 ≤ currentIndex < length`, and
`visibilities[currentIndex + 1] = clampedFraction` when
`currentIndex + 1 < length` (a negative index would create a plain
property invisible to the later `forEach`, so the `0 ≤` bound is
implicit there too). -/
def computeVisibilities (scrollLeft slideWidth : ℚ) (n : ℕ) : List ℚ :=
  let scrollRatio := scrollLeft / slideWidth
  let currentIndex : ℤ := ⌊scrollRatio⌋
  let fraction := scrollRatio - currentIndex
  let clampedFraction := jsClamp fraction 0 1
  let currentVis := 1 - clampedFraction
  let nextVis := clampedFraction
  (List.range n).map (fun (i : ℕ) =>
    if (i : ℤ) = currentIndex then currentVis
    else if (i : ℤ) = currentIndex + 1 then nextVis
    else 0)

/-- The update of the `visibilities.forEach` accumulator pair
`(mostVisibleIndex, highestVisibility)`:
`v > highestVisibility || (v === highestVisibility && idx >
mostVisibleIndex)`. -/
def mvStep (acc : ℕ × ℚ) (idx : ℕ) (v : ℚ) : ℕ × ℚ :=
  if acc.2 < v ∨ (v = acc.2 ∧ acc.1 < idx) then (idx, v) else acc

/-- The `forEach` loop computing the dominant slide, with running
index. -/
def mostVisAux : List ℚ → ℕ → ℕ × ℚ → ℕ × ℚ
  | [], _, acc => acc
  | v :: rest, idx, acc => mostVisAux rest (idx + 1) (mvStep acc idx v)

/-- `(mostVisibleIndex, highestVisibility)` as computed by
`checkSlideChange` (initial accumulator `(0, 0)`). -/
def mostVisible (vis : List ℚ) : ℕ × ℚ := mostVisAux vis 0 (0, 0)

/-- What the tracker reads from a slide's DOM dataset:
`slide.dataset.emjEffect` and `slide.dataset.emj`. -/
structure SlideCfg where
  emjEffect : String
  emj : String
  deriving DecidableEq, Repr

/-- The tracker's module-level mutable state: `activeSlideIndex` (init
0), `targetSlideIndex` (init 0), `activeEmojiIndex` (init `null`),
`effectsEnabled` (init true, possibly overwritten by a stored
preference). -/
structure TrackerState where
  activeSlideIndex : ℕ
  targetSlideIndex : ℕ
  activeEmojiIndex : Option ℕ
  effectsEnabled : Bool
  deriving DecidableEq, Repr

/-- The initial tracker state at module load. -/
def initTrackerState : TrackerState :=
  ⟨0, 0, none, true⟩

/-- Observable side effects fired by one `checkSlideChange` call:
`becomeActive i` bundles the ≥0.70 activation work (`restartSlideEffect`,
`setControlsForIndex`, start/stopTitleHints); `pickerUpdate i` is
`updatePickerLabel(i)`; `emojiSwitch i` is `switchEmojiEffect(i)`;
`resetEffect i` is `resetSlideEffect(i)`. -/
inductive TEvent where
  | becomeActive (i : ℕ)
  | pickerUpdate (i : ℕ)
  | emojiSwitch (i : ℕ)
  | resetEffect (i : ℕ)
  deriving DecidableEq, Repr

/-- State change of `switchEmojiEffect(targetIndex)` (with
`immediate = false`, as called from `checkSlideChange`): guards on a
missing slide and on `effectsEnabled`; an unchanged index returns early;
otherwise the slide's effect tag selects the new overlay and
`activeEmojiIndex` becomes the target for a recognized effect with
usable glyphs, `null` otherwise. -/
def switchEmojiEffectState (slides : List SlideCfg) (st : TrackerState)
    (target : ℕ) : TrackerState :=
  match slides[target]? with
  | none => st
  | some s =>
      if st.effectsEnabled = false then { st with activeEmojiIndex := none }
      else if st.activeEmojiIndex = some target then st
      else
        let eff := s.emjEffect.toLower
        if eff = "rain" ∧ s.emj.trim ≠ "" then
          { st with activeEmojiIndex := some target }
        else if eff = "fireworks" ∧ s.emj.trim ≠ "" then
          { st with activeEmojiIndex := some target }
        else if eff = "stars" then { st with activeEmojiIndex := some target }
        else { st with activeEmojiIndex := none }

/-- One `checkSlideChange(scrollLeft, slideWidth)` call: returns the new
tracker state and the fired events in source order.  The four threshold
blocks run in sequence on the same `(mostVisibleIndex,
highestVisibility)`; note the ≥0.70 block mutates `activeSlideIndex`
before the ≥0.50 picker check reads it. -/
def checkSlideChange (slides : List SlideCfg) (st : TrackerState)
    (scrollLeft slideWidth : ℚ) : TrackerState × List TEvent :=
  if slides.length = 0 then (st, [])
  else
    let vis := computeVisibilities scrollLeft slideWidth slides.length
    let mv := mostVisible vis
    let mvi := mv.1
    let hv := mv.2
    let act :=
      if 7/10 ≤ hv ∧ mvi ≠ st.activeSlideIndex then
        ({ st with activeSlideIndex := mvi, targetSlideIndex := mvi },
          [TEvent.becomeActive mvi])
      else (st, ([] : List TEvent))
    let st1 := act.1
    let ev2 : List TEvent :=
      if 1/2 ≤ hv ∧ mvi ≠ st1.activeSlideIndex then [TEvent.pickerUpdate mvi]
      else []
    let sw :=
      if st1.effectsEnabled ∧ 1/2 ≤ hv ∧ st1.activeEmojiIndex ≠ some mvi then
        (switchEmojiEffectState slides st1 mvi, [TEvent.emojiSwitch mvi])
      else (st1, ([] : List TEvent))
    let ev4 : List TEvent :=
      if 4/5 ≤ hv then
        (List.range slides.length).filterMap (fun i =>
          if i ≠ mvi ∧ vis.getD i 0 < 4/5 then some (TEvent.resetEffect i)
          else none)
      else []
    (sw.1, act.2 ++ ev2 ++ sw.2 ++ ev4)

/- ## Theorems.  Helper lemmas come first, then one theorem (plus
witness / counterexample) per claim. -/

theorem hexToRGB_of_not_matching (s : String)
    (h1 : matchesShortHex s = false) (h2 : matchesFullHex s = false) :
    hexToRGB s = ⟨0, 0, 0⟩ := by
  unfold hexToRGB
  unfold matchesShortHex at h1
  unfold matchesFullHex at h2
  split
  · rename_i a b c heq
    rw [heq] at h1
    simp only at h1
    rw [if_neg]
    simp [h1]
  · rename_i a b c d e f heq
    rw [heq] at h2
    simp only at h2
    rw [if_neg]
    simp [h2]
  · rfl

/-- C10: a string matching neither hex pattern (the empty string,
arbitrary text) parses to black `{r: 0, g: 0, b: 0}`, so blending is
total on arbitrary strings and a malformed color blends exactly like
black. -/
theorem claim_C10 (s : String)
    (h1 : matchesShortHex s = false) (h2 : matchesFullHex s = false) :
    hexToRGB s = ⟨0, 0, 0⟩ ∧
      ∀ s2 ratio, blendColorsHSV s s2 ratio = blendColorsHSV "#000000" s2 ratio := by
  have hb := hexToRGB_of_not_matching s h1 h2
  refine ⟨hb, fun s2 ratio => ?_⟩
  have h000 : hexToRGB "#000000" = ⟨0, 0, 0⟩ := by decide
  unfold blendColorsHSV blendedHSV hexToHSV
  rw [hb, h000]

theorem claim_C10_witness :
    (matchesShortHex "" = false ∧ matchesFullHex "" = false ∧
        hexToRGB "" = ⟨0, 0, 0⟩) ∧
      matchesShortHex "hello?" = false ∧ matchesFullHex "hello?" = false ∧
        hexToRGB "hello?" = ⟨0, 0, 0⟩ :=
  ⟨⟨by decide, by decide, (claim_C10 "" (by decide) (by decide)).1⟩,
    by decide, by decide, (claim_C10 "hello?" (by decide) (by decide)).1⟩

theorem substAux_renders (data : DataRecord) (l : List Char) :
    substAux data l = ((substTokensSpec l).map (renderPieceSpec data)).flatten := by
  induction l using substTokensSpec.induct with
  | case1 => simp [substAux, substTokensSpec]
  | case2 rest nm af hcond ih =>
      simp only [substAux, substTokensSpec]
      rw [if_pos hcond, if_pos hcond]
      cases hl : List.lookup
          (String.mk (List.takeWhile (fun x => decide (x ≠ '}')) rest)) data with
      | some v =>
          simp only [hl, List.map_cons, List.flatten_cons, renderPieceSpec]
          rw [List.append_right_inj]
          exact ih
      | none =>
          simp only [hl, List.map_cons, List.flatten_cons, renderPieceSpec]
          simp only [List.cons_append, List.append_assoc, List.singleton_append,
            List.cons.injEq, true_and]
          rw [ih]
          simp only [List.nil_append]
  | case3 rest nm af hcond ih =>
      simp only [substAux, substTokensSpec]
      rw [if_neg hcond, if_neg hcond]
      simp [renderPieceSpec, ih]
  | case4 c rest hshape ih =>
      have hstep : substAux data (c :: rest) = c :: substAux data rest := by
        rw [substAux.eq_def]
        split
        · rename_i heq; exact absurd heq (by simp)
        · rename_i r heq
          injection heq with hc hrest
          exact ((hshape r hc hrest)).elim
        · rename_i c2 rest2 hsh2 heq
          injection heq with hc hrest
          subst hc; subst hrest; rfl
      have hstep2 : substTokensSpec (c :: rest) =
          SubstPiece.lit c :: substTokensSpec rest := by
        rw [substTokensSpec.eq_def]
        split
        · rename_i heq; exact absurd heq (by simp)
        · rename_i r heq
          injection heq with hc hrest
          exact ((hshape r hc hrest)).elim
        · rename_i c2 rest2 hsh2 heq
          injection heq with hc hrest
          subst hc; subst hrest; rfl
      rw [hstep, hstep2]
      simp [renderPieceSpec, ih]

theorem takeWhile_brace (name : List Char) (hnb : '}' ∉ name) :
    List.takeWhile (fun x => decide (x ≠ '}')) (name ++ ['}']) = name ∧
      List.dropWhile (fun x => decide (x ≠ '}')) (name ++ ['}']) = ['}'] := by
  induction name with
  | nil => simp [List.takeWhile, List.dropWhile]
  | cons c t ih =>
      simp only [List.mem_cons, not_or] at hnb
      have hrec := ih hnb.2
      have hc : ¬(c = '}') := fun h => hnb.1 h.symm
      simp only [ne_eq, decide_not] at hrec
      simp [List.takeWhile_cons, List.dropWhile_cons, hc, hrec.1, hrec.2]

/-- C9: `substituteVariables` rewrites the text as its token
decomposition rendered against the data record: every `%\x7bname\x7d`
token whose name exists in the record becomes the record's value, and a
token whose name is absent stays verbatim (no failure, no empty
replacement); in particular this holds for a single token by itself. -/
theorem claim_C9 :
    (∀ (text : String) (data : DataRecord),
        substituteVariables text data =
          String.mk (((substTokensSpec text.toList).map
            (renderPieceSpec data)).flatten)) ∧
      (∀ (data : DataRecord) (name : List Char) (v : String),
          name ≠ [] → '}' ∉ name →
          data.lookup (String.mk name) = some v →
          substituteVariables (String.mk ('%' :: '{' :: (name ++ ['}']))) data
            = v) ∧
      ∀ (data : DataRecord) (name : List Char),
          name ≠ [] → '}' ∉ name →
          data.lookup (String.mk name) = none →
          substituteVariables (String.mk ('%' :: '{' :: (name ++ ['}']))) data
            = String.mk ('%' :: '{' :: (name ++ ['}'])) := by
  refine ⟨fun text data => ?_, fun data name v hne hnb hl => ?_,
    fun data name hne hnb hl => ?_⟩
  · unfold substituteVariables
    rw [substAux_renders]
  · obtain ⟨ht, hd⟩ := takeWhile_brace name hnb
    unfold substituteVariables
    simp only [String.toList, substAux, ht, hd]
    rw [if_pos ⟨hne, by simp⟩, hl]
    simp [substAux]
  · obtain ⟨ht, hd⟩ := takeWhile_brace name hnb
    unfold substituteVariables
    simp only [String.toList, substAux, ht, hd]
    rw [if_pos ⟨hne, by simp⟩, hl]
    simp [substAux]

theorem claim_C9_witness :
    (([("n", "42")] : DataRecord).lookup (String.mk ['n']) = some "42" ∧
        substituteVariables (String.mk ['%', '{', 'n', '}']) [("n", "42")]
          = "42") ∧
      ([] : DataRecord).lookup (String.mk ['m']) = none ∧
        substituteVariables (String.mk ['%', '{', 'm', '}']) []
          = String.mk ['%', '{', 'm', '}'] := by
  refine ⟨⟨by decide, ?_⟩, by decide, ?_⟩
  · exact claim_C9.2.1 [("n", "42")] ['n'] "42" (by decide) (by decide)
      (by decide)
  · exact claim_C9.2.2 [] ['m'] (by decide) (by decide) (by decide)

theorem substAux_cons_other (data : DataRecord) (c : Char) (rest : List Char)
    (hshape : ∀ r, c = '%' → rest = '{' :: r → False) :
    substAux data (c :: rest) = c :: substAux data rest := by
  rw [substAux.eq_def]
  split
  · rename_i heq; exact absurd heq (by simp)
  · rename_i r heq
    injection heq with hc hrest
    exact ((hshape r hc hrest)).elim
  · rename_i c2 rest2 hsh2 heq
    injection heq with hc hrest
    subst hc; subst hrest; rfl

theorem substAux_no_percent (data : DataRecord) (l : List Char)
    (h : '%' ∉ l) : substAux data l = l := by
  induction l with
  | nil => simp [substAux]
  | cons c t ih =>
      simp only [List.mem_cons, not_or] at h
      rw [substAux_cons_other data c t (fun r hc _ => h.1 hc.symm),
        ih h.2]

theorem substituteVariables_no_percent (text : String) (data : DataRecord)
    (h : '%' ∉ text.toList) : substituteVariables text data = text := by
  unfold substituteVariables
  rw [substAux_no_percent data _ h]
  rfl

theorem parseNumberParts_start :
    parseNumberParts [] (some "$0") = ⟨0, "$", "", 0⟩ := by
  unfold parseNumberParts
  simp only [Option.getD_some]
  rw [substituteVariables_no_percent _ _ (by decide)]
  decide

theorem parseNumberParts_end :
    parseNumberParts [] (some "$1,234.50") = ⟨1, "$", ",234.50", 0⟩ := by
  unfold parseNumberParts
  simp only [Option.getD_some]
  rw [substituteVariables_no_percent _ _ (by decide)]
  decide

/-- C3 counterexample: with start `"$0"`, end `"$1,234.50"` and no step,
the extraction regex cannot cross the comma (`-?\d*\.?\d+` matches just
`"1"`, leaving suffix `",234.50"` with 0 decimals), so the computed
precision is 0, not 2, and the final frame is `"$1,234.50"` (via the
suffix), not `"$1234.50"`. -/
theorem claim_C3_counterexample :
    countUpPrecision ⟨some "$0", some "$1,234.50", none, none, none⟩ [] ≠ 2 ∧
      countUpFinalFrame ⟨some "$0", some "$1,234.50", none, none, none⟩ []
        ≠ "$1234.50" := by
  have hcur : (0 : ℚ) + (1 - 0) * easeOutCubic 1 = 1 := by
    norm_num [easeOutCubic]
  have hrnd : jsRound 1 = 1 := by norm_num [jsRound]
  constructor
  · simp only [countUpPrecision, parseNumberParts_start, parseNumberParts_end]
    decide
  · simp only [countUpFinalFrame, countUpFrameText, countUpPrecision,
      countUpPfx, countUpSfx, parseNumberParts_start, parseNumberParts_end,
      stepPrecision, hcur, hrnd]
    decide

/-- C3 amended: with start `"$0"`, end `"$1,234.50"` and no step, the
parsing and precision rule yields precision 0 (the comma stops the
numeric match at `"1"`, so start, end and step all have 0 decimals), a
prefix of `"$"`, and a final displayed frame equal to `"$1,234.50"`
(the count-up runs from 0 to 1 and the text `",234.50"` is carried as
the suffix). -/
theorem claim_C3_amended :
    countUpPrecision ⟨some "$0", some "$1,234.50", none, none, none⟩ [] = 0 ∧
      countUpPfx ⟨some "$0", some "$1,234.50", none, none, none⟩ [] = "$" ∧
      countUpFinalFrame ⟨some "$0", some "$1,234.50", none, none, none⟩ []
        = "$1,234.50" := by
  have hcur : (0 : ℚ) + (1 - 0) * easeOutCubic 1 = 1 := by
    norm_num [easeOutCubic]
  have hrnd : jsRound 1 = 1 := by norm_num [jsRound]
  refine ⟨?_, ?_, ?_⟩
  · simp only [countUpPrecision, parseNumberParts_start, parseNumberParts_end]
    decide
  · simp only [countUpPfx, parseNumberParts_start]
    decide
  · simp only [countUpFinalFrame, countUpFrameText, countUpPrecision,
      countUpPfx, countUpSfx, parseNumberParts_start, parseNumberParts_end,
      stepPrecision, hcur, hrnd]
    decide

theorem mem_ite_list {α : Type} (x : α) (c : Prop) [Decidable c]
    (l1 l2 : List α) :
    (x ∈ if c then l1 else l2) ↔ (c ∧ x ∈ l1) ∨ (¬c ∧ x ∈ l2) := by
  split <;> simp [*]

theorem fst_ite {α β : Type} (c : Prop) [Decidable c] (a b : α × β) :
    (if c then a else b).1 = if c then a.1 else b.1 := by split <;> rfl

theorem snd_ite {α β : Type} (c : Prop) [Decidable c] (a b : α × β) :
    (if c then a else b).2 = if c then a.2 else b.2 := by split <;> rfl

theorem checkSlideChange_becomeActive_iff (slides : List SlideCfg)
    (st : TrackerState) (sL sW : ℚ) (i : ℕ) :
    TEvent.becomeActive i ∈ (checkSlideChange slides st sL sW).2 ↔
      slides.length ≠ 0 ∧
        7/10 ≤ (mostVisible (computeVisibilities sL sW slides.length)).2 ∧
        (mostVisible (computeVisibilities sL sW slides.length)).1
          ≠ st.activeSlideIndex ∧
        i = (mostVisible (computeVisibilities sL sW slides.length)).1 := by
  by_cases hn : slides.length = 0
  · simp [checkSlideChange, hn]
  · by_cases h1 : 7/10 ≤ (mostVisible (computeVisibilities sL sW slides.length)).2 ∧
        (mostVisible (computeVisibilities sL sW slides.length)).1
          ≠ st.activeSlideIndex
    · simp [checkSlideChange, hn, h1, mem_ite_list, snd_ite, fst_ite,
        List.mem_filterMap, Option.ite_none_right_eq_some, h1.1, h1.2]
    · simp only [checkSlideChange, if_neg hn, if_neg h1]
      simp [mem_ite_list, snd_ite, fst_ite, List.mem_filterMap,
        Option.ite_none_right_eq_some]
      exact fun _ hA hB _ => h1 ⟨hA, hB⟩

theorem switchEmojiEffectState_proj (slides : List SlideCfg)
    (st : TrackerState) (t : ℕ) :
    (switchEmojiEffectState slides st t).activeSlideIndex
        = st.activeSlideIndex ∧
      (switchEmojiEffectState slides st t).targetSlideIndex
        = st.targetSlideIndex ∧
      (switchEmojiEffectState slides st t).effectsEnabled
        = st.effectsEnabled := by
  unfold switchEmojiEffectState
  rcases slides[t]? with _ | s
  · simp
  · simp only
    split_ifs <;> simp

theorem checkSlideChange_pickerUpdate_iff (slides : List SlideCfg)
    (st : TrackerState) (sL sW : ℚ) (i : ℕ) :
    TEvent.pickerUpdate i ∈ (checkSlideChange slides st sL sW).2 ↔
      slides.length ≠ 0 ∧
        1/2 ≤ (mostVisible (computeVisibilities sL sW slides.length)).2 ∧
        ¬(7/10 ≤ (mostVisible (computeVisibilities sL sW slides.length)).2) ∧
        (mostVisible (computeVisibilities sL sW slides.length)).1
          ≠ st.activeSlideIndex ∧
        i = (mostVisible (computeVisibilities sL sW slides.length)).1 := by
  by_cases hn : slides.length = 0
  · simp [checkSlideChange, hn]
  · by_cases h1 : 7/10 ≤ (mostVisible (computeVisibilities sL sW slides.length)).2 ∧
        (mostVisible (computeVisibilities sL sW slides.length)).1
          ≠ st.activeSlideIndex
    · simp [checkSlideChange, hn, h1, mem_ite_list, snd_ite, fst_ite,
        List.mem_filterMap, Option.ite_none_right_eq_some, h1.1, h1.2]
    · simp only [checkSlideChange, if_neg hn, if_neg h1]
      simp [mem_ite_list, snd_ite, fst_ite, List.mem_filterMap,
        Option.ite_none_right_eq_some, hn]
      constructor
      · rintro ⟨⟨hA, hB⟩, hi⟩
        exact ⟨hA, lt_of_not_le (fun h7 => h1 ⟨h7, hB⟩), hB, hi⟩
      · rintro ⟨hA, h7, hB, hi⟩
        exact ⟨⟨hA, hB⟩, hi⟩

theorem checkSlideChange_emojiSwitch_iff (slides : List SlideCfg)
    (st : TrackerState) (sL sW : ℚ) (i : ℕ) :
    TEvent.emojiSwitch i ∈ (checkSlideChange slides st sL sW).2 ↔
      slides.length ≠ 0 ∧ st.effectsEnabled = true ∧
        1/2 ≤ (mostVisible (computeVisibilities sL sW slides.length)).2 ∧
        st.activeEmojiIndex
          ≠ some (mostVisible (computeVisibilities sL sW slides.length)).1 ∧
        i = (mostVisible (computeVisibilities sL sW slides.length)).1 := by
  by_cases hn : slides.length = 0
  · simp [checkSlideChange, hn]
  · by_cases h1 : 7/10 ≤ (mostVisible (computeVisibilities sL sW slides.length)).2 ∧
        (mostVisible (computeVisibilities sL sW slides.length)).1
          ≠ st.activeSlideIndex
    · simp [checkSlideChange, hn, h1, mem_ite_list, snd_ite, fst_ite,
        List.mem_filterMap, Option.ite_none_right_eq_some, h1.1, h1.2]
      tauto
    · simp only [checkSlideChange, if_neg hn, if_neg h1]
      simp [mem_ite_list, snd_ite, fst_ite, List.mem_filterMap,
        Option.ite_none_right_eq_some, hn]
      tauto

theorem checkSlideChange_state (slides : List SlideCfg) (st : TrackerState)
    (sL sW : ℚ) :
    (checkSlideChange slides st sL sW).1.effectsEnabled = st.effectsEnabled ∧
      (checkSlideChange slides st sL sW).1.activeSlideIndex =
        (if slides.length ≠ 0 ∧
            7/10 ≤ (mostVisible (computeVisibilities sL sW slides.length)).2 ∧
            (mostVisible (computeVisibilities sL sW slides.length)).1
              ≠ st.activeSlideIndex
          then (mostVisible (computeVisibilities sL sW slides.length)).1
          else st.activeSlideIndex) := by
  by_cases hn : slides.length = 0
  · simp [checkSlideChange, hn]
  · by_cases h1 : 7/10 ≤ (mostVisible (computeVisibilities sL sW slides.length)).2 ∧
        (mostVisible (computeVisibilities sL sW slides.length)).1
          ≠ st.activeSlideIndex
    · simp [checkSlideChange, hn, h1, fst_ite, snd_ite,
        switchEmojiEffectState_proj, apply_ite TrackerState.effectsEnabled,
        apply_ite TrackerState.activeSlideIndex,
        (switchEmojiEffectState_proj _ _ _).1,
        (switchEmojiEffectState_proj _ _ _).2.2]
    · simp [checkSlideChange, hn, h1, fst_ite, snd_ite,
        apply_ite TrackerState.effectsEnabled,
        apply_ite TrackerState.activeSlideIndex,
        (switchEmojiEffectState_proj _ _ _).1,
        (switchEmojiEffectState_proj _ _ _).2.2]

/-- C5: feeding the same scroll sample twice never re-fires the
become-active transition on the second call (the first call left
`activeSlideIndex` equal to the dominant index whenever the 0.70 test
could pass), while the particle-switch event on the second call is
re-evaluated from scratch and keyed on `activeEmojiIndex`, independent
of the activation state. -/
theorem claim_C5 (slides : List SlideCfg) (st : TrackerState) (sL sW : ℚ) :
    (∀ i, TEvent.becomeActive i ∉
        (checkSlideChange slides (checkSlideChange slides st sL sW).1
          sL sW).2) ∧
      ∀ i, TEvent.emojiSwitch i ∈
          (checkSlideChange slides (checkSlideChange slides st sL sW).1
            sL sW).2 ↔
        slides.length ≠ 0 ∧
          (checkSlideChange slides st sL sW).1.effectsEnabled = true ∧
          1/2 ≤ (mostVisible (computeVisibilities sL sW slides.length)).2 ∧
          (checkSlideChange slides st sL sW).1.activeEmojiIndex
            ≠ some (mostVisible (computeVisibilities sL sW slides.length)).1 ∧
          i = (mostVisible (computeVisibilities sL sW slides.length)).1 := by
  constructor
  · intro i hmem
    rw [checkSlideChange_becomeActive_iff] at hmem
    obtain ⟨hn, h7, hne, rfl⟩ := hmem
    have hst := (checkSlideChange_state slides st sL sW).2
    by_cases hb : (mostVisible (computeVisibilities sL sW slides.length)).1
        ≠ st.activeSlideIndex
    · rw [if_pos ⟨hn, h7, hb⟩] at hst
      exact hne hst.symm
    · rw [if_neg (by tauto)] at hst
      push_neg at hb
      exact hne (hb.trans hst.symm)
  · intro i
    exact checkSlideChange_emojiSwitch_iff slides _ sL sW i

theorem claim_C5_witness :
    TEvent.becomeActive 1 ∉
      (checkSlideChange [⟨"stars", ""⟩, ⟨"rain", "x"⟩]
        (checkSlideChange [⟨"stars", ""⟩, ⟨"rain", "x"⟩] initTrackerState 0 1).1
        0 1).2 :=
  (claim_C5 [⟨"stars", ""⟩, ⟨"rain", "x"⟩] initTrackerState 0 1).1 1

theorem computeVisibilities_one_one_two : computeVisibilities 1 1 2 = [0, 1] := by
  simp only [computeVisibilities, jsClamp]
  norm_num [List.range_succ]

theorem mostVisible_one_one_two :
    mostVisible (computeVisibilities 1 1 2) = (1, 1) := by
  rw [computeVisibilities_one_one_two]
  norm_num [mostVisible, mostVisAux, mvStep]

/-- C6 counterexample: two slides, initial state (slide 0 active), one
sample at `scrollLeft = slideWidth`: the dominant slide is 1 with
visibility 1 ≥ 0.50 and dominance changed, but `updatePickerLabel` is
not fired, because the ≥ 0.70 activation block already overwrote
`activeSlideIndex` before the picker check compared against it. -/
theorem claim_C6_counterexample :
    1/2 ≤ (mostVisible (computeVisibilities 1 1 2)).2 ∧
      (mostVisible (computeVisibilities 1 1 2)).1
        ≠ initTrackerState.activeSlideIndex ∧
      TEvent.pickerUpdate (mostVisible (computeVisibilities 1 1 2)).1 ∉
        (checkSlideChange [⟨"stars", ""⟩, ⟨"rain", "x"⟩] initTrackerState
          1 1).2 := by
  refine ⟨by rw [mostVisible_one_one_two]; norm_num,
    by rw [mostVisible_one_one_two]; simp [initTrackerState], ?_⟩
  rw [checkSlideChange_pickerUpdate_iff]
  simp only [List.length_cons, List.length_nil]
  rw [mostVisible_one_one_two]
  norm_num

/-- C6 amended: the picker-label update fires exactly for samples whose
dominant visibility is in `[0.50, 0.70)` with the dominant slide
different from `activeSlideIndex`; when visibility is ≥ 0.70 the
activation block records the new index first and the label update is
skipped on that sample. -/
theorem claim_C6_amended (slides : List SlideCfg) (st : TrackerState)
    (sL sW : ℚ) (i : ℕ) :
    TEvent.pickerUpdate i ∈ (checkSlideChange slides st sL sW).2 ↔
      slides.length ≠ 0 ∧
        1/2 ≤ (mostVisible (computeVisibilities sL sW slides.length)).2 ∧
        ¬(7/10 ≤ (mostVisible (computeVisibilities sL sW slides.length)).2) ∧
        (mostVisible (computeVisibilities sL sW slides.length)).1
          ≠ st.activeSlideIndex ∧
        i = (mostVisible (computeVisibilities sL sW slides.length)).1 :=
  checkSlideChange_pickerUpdate_iff slides st sL sW i

theorem mvStep_le (acc : ℕ × ℚ) (k : ℕ) (v : ℚ) :
    acc.2 ≤ (mvStep acc k v).2 ∧ v ≤ (mvStep acc k v).2 := by
  unfold mvStep
  split_ifs with h
  · rcases h with h | h
    · exact ⟨le_of_lt h, le_refl _⟩
    · exact ⟨h.1.ge, le_refl _⟩
  · push_neg at h
    exact ⟨le_refl _, h.1⟩

theorem mostVisAux_le (l : List ℚ) : ∀ (k : ℕ) (acc : ℕ × ℚ),
    acc.2 ≤ (mostVisAux l k acc).2 ∧
      ∀ j, j < l.length → l.getD j 0 ≤ (mostVisAux l k acc).2 := by
  induction l with
  | nil => exact fun k acc => ⟨le_refl _, fun j hj => absurd hj (by simp)⟩
  | cons v rest ih =>
      intro k acc
      obtain ⟨ih1, ih2⟩ := ih (k + 1) (mvStep acc k v)
      refine ⟨le_trans (mvStep_le acc k v).1 ih1, ?_⟩
      intro j hj
      cases j with
      | zero => simpa using le_trans (mvStep_le acc k v).2 ih1
      | succ j =>
          simpa using ih2 j (by simpa using hj)

theorem mostVisAux_form (l : List ℚ) : ∀ (k : ℕ) (acc : ℕ × ℚ),
    mostVisAux l k acc = acc ∨
      ∃ j, j < l.length ∧ mostVisAux l k acc = (k + j, l.getD j 0) := by
  induction l with
  | nil => exact fun k acc => Or.inl rfl
  | cons v rest ih =>
      intro k acc
      have hrec : mostVisAux (v :: rest) k acc
          = mostVisAux rest (k + 1) (mvStep acc k v) := rfl
      rcases ih (k + 1) (mvStep acc k v) with h | ⟨j, hj, h⟩
      · rw [hrec, h]
        unfold mvStep
        split_ifs with hc
        · right
          exact ⟨0, by simp, by simp⟩
        · left; rfl
      · right
        refine ⟨j + 1, by simpa using hj, ?_⟩
        rw [hrec, h]
        simp only [Prod.mk.injEq, List.getD_cons_succ]
        exact ⟨by omega, trivial⟩

theorem mostVisAux_ties (l : List ℚ) : ∀ (k : ℕ) (acc : ℕ × ℚ) (j : ℕ),
    j < l.length → l.getD j 0 = (mostVisAux l k acc).2 →
      k + j ≤ (mostVisAux l k acc).1 := by
  induction l with
  | nil => exact fun k acc j hj => absurd hj (by simp)
  | cons v rest ih =>
      intro k acc j hj hval
      have hrec : mostVisAux (v :: rest) k acc
          = mostVisAux rest (k + 1) (mvStep acc k v) := rfl
      cases j with
      | zero =>
          rw [Nat.add_zero]
          by_cases hc : acc.2 < v ∨ (v = acc.2 ∧ acc.1 < k)
          · have hstep : mvStep acc k v = (k, v) := by unfold mvStep; rw [if_pos hc]
            rcases mostVisAux_form rest (k + 1) (mvStep acc k v) with h | ⟨j2, hj2, h⟩
            · rw [hrec, h, hstep]
            · rw [hrec, h]
              omega
          · have hstep : mvStep acc k v = acc := by unfold mvStep; rw [if_neg hc]
            rcases mostVisAux_form rest (k + 1) (mvStep acc k v) with h | ⟨j2, hj2, h⟩
            · rw [hrec, h, hstep]
              rw [hrec, h, hstep] at hval
              simp only [List.getD_cons_zero] at hval
              push_neg at hc
              exact hc.2 hval
            · rw [hrec, h]
              omega
      | succ j =>
          rw [hrec]
          rw [hrec] at hval
          simp only [List.getD_cons_succ] at hval
          have := ih (k + 1) (mvStep acc k v) j (by simpa using hj) hval
          omega

theorem computeVisibilities_length (sL sW : ℚ) (n : ℕ) :
    (computeVisibilities sL sW n).length = n := by
  simp [computeVisibilities]

theorem computeVisibilities_getD (sL sW : ℚ) (n j : ℕ) (hj : j < n) :
    (computeVisibilities sL sW n).getD j 0 =
      (if (j : ℤ) = ⌊sL / sW⌋ then 1 - jsClamp (sL / sW - ⌊sL / sW⌋) 0 1
       else if (j : ℤ) = ⌊sL / sW⌋ + 1 then jsClamp (sL / sW - ⌊sL / sW⌋) 0 1
       else 0) := by
  simp only [computeVisibilities]
  rw [List.getD_eq_getElem?_getD, List.getElem?_map, List.getElem?_range hj]
  rfl

theorem mostVisible_spec (vis : List ℚ) (hne : vis ≠ [])
    (hnn : ∀ j, j < vis.length → 0 ≤ vis.getD j 0) :
    (mostVisible vis).1 < vis.length ∧
      vis.getD (mostVisible vis).1 0 = (mostVisible vis).2 ∧
      (∀ j, j < vis.length → vis.getD j 0 ≤ (mostVisible vis).2) ∧
      ∀ j, j < vis.length → vis.getD j 0 = (mostVisible vis).2 →
        j ≤ (mostVisible vis).1 := by
  have hlen : 0 < vis.length := List.length_pos.mpr hne
  have hle := mostVisAux_le vis 0 (0, 0)
  have hties := mostVisAux_ties vis 0 (0, 0)
  unfold mostVisible
  rcases mostVisAux_form vis 0 (0, 0) with h | ⟨j, hj, h⟩
  · rw [h]
    rw [h] at hle hties
    exact ⟨hlen,
      le_antisymm (by simpa using hle.2 0 hlen) (by simpa using hnn 0 hlen),
      fun j hjl => hle.2 j hjl,
      fun j hjl hv => by simpa using hties j hjl hv⟩
  · rw [h]
    rw [h] at hle hties
    exact ⟨by simpa using hj, by simp,
      fun j2 hjl => hle.2 j2 hjl,
      fun j2 hjl hv => by simpa using hties j2 hjl hv⟩

theorem sum_range_map (g : ℕ → ℚ) (n : ℕ) :
    ((List.range n).map g).sum = ∑ j ∈ Finset.range n, g j := by
  induction n with
  | zero => simp
  | succ n ih => rw [List.range_succ]; simp [ih, Finset.sum_range_succ]

/-- C1 counterexample: with 2 slides, slide width 2 and scroll offset 3
the scroll ratio 3/2 is non-integral, yet the visibilities sum to 1/2,
not 1: `currentIndex + 1 = 2` is out of range, so its share is dropped
by the bounds guard. -/
theorem claim_C1_counterexample :
    (3 : ℚ) / 2 - ⌊(3 : ℚ) / 2⌋ ≠ 0 ∧
      (computeVisibilities 3 2 2).sum ≠ 1 := by
  have hf : ⌊(3 : ℚ) / 2⌋ = 1 := by norm_num
  constructor
  · rw [hf]; norm_num
  · simp only [computeVisibilities, jsClamp]
    norm_num [List.range_succ]

/-- C1 amended: for every scroll offset and positive slide width whose
ratio lies in the scrollable range `[0, n−1]` of an `n`-slide strip,
the tracker computes `scrollRatio = offset / slideWidth`,
`currentIndex = ⌊scrollRatio⌋` and `fraction` (the clamp to `[0,1]` is
the identity here); slide `currentIndex` has visibility `1 − fraction`,
slide `currentIndex + 1` has visibility `fraction`, all others 0; the
visibilities sum to exactly 1 when the ratio is non-integral; at an
integral ratio the dominant slide is `currentIndex` with visibility
exactly 1; and the dominant slide maximises visibility with ties broken
toward the higher index.  (Outside `[0, n−1]` the out-of-range share is
dropped, see the counterexample.) -/
theorem claim_C1_amended (n : ℕ) (offset w : ℚ) (hw : 0 < w) (hn : 1 ≤ n)
    (h0 : 0 ≤ offset / w) (h1 : offset / w ≤ (n : ℚ) - 1) :
    (∀ j, j < n → (computeVisibilities offset w n).getD j 0 =
        (if (j : ℤ) = ⌊offset / w⌋ then 1 - (offset / w - ⌊offset / w⌋)
         else if (j : ℤ) = ⌊offset / w⌋ + 1 then offset / w - ⌊offset / w⌋
         else 0)) ∧
      (offset / w - ⌊offset / w⌋ ≠ 0 →
        (computeVisibilities offset w n).sum = 1) ∧
      (offset / w - ⌊offset / w⌋ = 0 →
        (mostVisible (computeVisibilities offset w n)).2 = 1 ∧
          ((mostVisible (computeVisibilities offset w n)).1 : ℤ)
            = ⌊offset / w⌋) ∧
      (mostVisible (computeVisibilities offset w n)).1 < n ∧
      (∀ j, j < n → (computeVisibilities offset w n).getD j 0
          ≤ (mostVisible (computeVisibilities offset w n)).2) ∧
      ∀ j, j < n → (computeVisibilities offset w n).getD j 0
          = (mostVisible (computeVisibilities offset w n)).2 →
          j ≤ (mostVisible (computeVisibilities offset w n)).1 := by
  have hf0 : 0 ≤ offset / w - ⌊offset / w⌋ := by
    have := Int.fract_nonneg (offset / w)
    rwa [Int.fract] at this
  have hf1 : offset / w - ⌊offset / w⌋ < 1 := by
    have := Int.fract_lt_one (offset / w)
    rwa [Int.fract] at this
  have hclamp : jsClamp (offset / w - ⌊offset / w⌋) 0 1
      = offset / w - ⌊offset / w⌋ := by
    unfold jsClamp
    rw [max_eq_left hf0, min_eq_left hf1.le]
  have hentry : ∀ j, j < n → (computeVisibilities offset w n).getD j 0 =
      (if (j : ℤ) = ⌊offset / w⌋ then 1 - (offset / w - ⌊offset / w⌋)
       else if (j : ℤ) = ⌊offset / w⌋ + 1 then offset / w - ⌊offset / w⌋
       else 0) := by
    intro j hj
    rw [computeVisibilities_getD offset w n j hj, hclamp]
  have hc0 : 0 ≤ ⌊offset / w⌋ := Int.floor_nonneg.mpr h0
  have hcle : ⌊offset / w⌋ ≤ (n : ℤ) - 1 := by
    exact_mod_cast le_trans (Int.floor_le (offset / w)) h1
  have hnn : ∀ j, j < (computeVisibilities offset w n).length →
      0 ≤ (computeVisibilities offset w n).getD j 0 := by
    intro j hj
    rw [computeVisibilities_length] at hj
    rw [hentry j hj]
    split_ifs <;> linarith
  have hne : computeVisibilities offset w n ≠ [] := by
    intro hE
    have := computeVisibilities_length offset w n
    rw [hE] at this
    simp at this
    omega
  obtain ⟨hm, hattain, hle, hties⟩ := mostVisible_spec _ hne hnn
  rw [computeVisibilities_length] at hm
  refine ⟨hentry, ?_, ?_, hm, fun j hj =>
      hle j (by rwa [computeVisibilities_length]),
    fun j hj hv => hties j (by rwa [computeVisibilities_length]) hv⟩
  · -- non-integral ratio: the two allotted shares are both in range
    intro hf
    have hlt : ⌊offset / w⌋ < (n : ℤ) - 1 := by
      rcases lt_or_eq_of_le hcle with h | h
      · exact h
      · exfalso
        apply hf
        have hcast : ((⌊offset / w⌋ : ℤ) : ℚ) = (n : ℚ) - 1 := by
          rw [h]
          push_cast
          ring
        have : offset / w - ⌊offset / w⌋ ≤ 0 := by
          rw [hcast]
          linarith
        linarith
    have hcnz : ((⌊offset / w⌋.toNat : ℤ)) = ⌊offset / w⌋ :=
      Int.toNat_of_nonneg hc0
    have hcn1 : ⌊offset / w⌋.toNat + 1 < n := by omega
    have hform : computeVisibilities offset w n = (List.range n).map
        (fun (i : ℕ) =>
          if (i : ℤ) = ⌊offset / w⌋ then
            1 - jsClamp (offset / w - ⌊offset / w⌋) 0 1
          else if (i : ℤ) = ⌊offset / w⌋ + 1 then
            jsClamp (offset / w - ⌊offset / w⌋) 0 1
          else 0) := rfl
    rw [hform]
    simp only [hclamp]
    rw [sum_range_map]
    have hsplit : ∀ j ∈ Finset.range n,
        (if (j : ℤ) = ⌊offset / w⌋ then 1 - (offset / w - ⌊offset / w⌋)
         else if (j : ℤ) = ⌊offset / w⌋ + 1 then offset / w - ⌊offset / w⌋
         else 0) =
        (if j = ⌊offset / w⌋.toNat then 1 - (offset / w - ⌊offset / w⌋)
          else 0) +
          (if j = ⌊offset / w⌋.toNat + 1 then offset / w - ⌊offset / w⌋
            else 0) := by
      intro j hj
      by_cases e1 : j = ⌊offset / w⌋.toNat
      · have hz : (j : ℤ) = ⌊offset / w⌋ := by omega
        have hz2 : ¬(j = ⌊offset / w⌋.toNat + 1) := by omega
        rw [if_pos hz, if_pos e1, if_neg hz2]
        ring
      · by_cases e2 : j = ⌊offset / w⌋.toNat + 1
        · have hz : (j : ℤ) = ⌊offset / w⌋ + 1 := by omega
          have hz2 : ¬((j : ℤ) = ⌊offset / w⌋) := by omega
          rw [if_neg hz2, if_pos hz, if_neg e1, if_pos e2]
          ring
        · have hz : ¬((j : ℤ) = ⌊offset / w⌋ + 1) := by omega
          have hz2 : ¬((j : ℤ) = ⌊offset / w⌋) := by omega
          rw [if_neg hz2, if_neg hz, if_neg e1, if_neg e2]
          ring
    rw [Finset.sum_congr rfl hsplit, Finset.sum_add_distrib,
      Finset.sum_ite_eq' (Finset.range n) (⌊offset / w⌋.toNat),
      Finset.sum_ite_eq' (Finset.range n) (⌊offset / w⌋.toNat + 1),
      if_pos (Finset.mem_range.mpr (by omega)),
      if_pos (Finset.mem_range.mpr hcn1)]
    ring
  · -- integral ratio: the dominant slide is currentIndex at visibility 1
    intro hf
    have hcnz : ((⌊offset / w⌋.toNat : ℤ)) = ⌊offset / w⌋ :=
      Int.toNat_of_nonneg hc0
    have hcnlt : ⌊offset / w⌋.toNat < n := by omega
    have hcval : (computeVisibilities offset w n).getD ⌊offset / w⌋.toNat 0
        = 1 := by
      rw [hentry _ hcnlt, if_pos (by omega), hf]
      ring
    have hub : ∀ j, j < n → (computeVisibilities offset w n).getD j 0 ≤ 1 := by
      intro j hj
      rw [hentry j hj]
      split_ifs <;> linarith
    have hhv : (mostVisible (computeVisibilities offset w n)).2 = 1 := by
      have hge : 1 ≤ (mostVisible (computeVisibilities offset w n)).2 := by
        rw [← hcval]
        exact hle _ (by rwa [computeVisibilities_length])
      have hle1 : (mostVisible (computeVisibilities offset w n)).2 ≤ 1 := by
        rw [← hattain]
        exact hub _ hm
      linarith
    refine ⟨hhv, ?_⟩
    have hmv : (computeVisibilities offset w n).getD
        (mostVisible (computeVisibilities offset w n)).1 0 = 1 :=
      hattain.trans hhv
    rw [hentry _ hm] at hmv
    by_cases e1 : ((mostVisible (computeVisibilities offset w n)).1 : ℤ)
        = ⌊offset / w⌋
    · exact e1
    · exfalso
      rw [if_neg e1] at hmv
      split_ifs at hmv with e2
      · rw [hf] at hmv
        norm_num at hmv
      · norm_num at hmv

theorem claim_C1_amended_witness :
    ((0 : ℚ) < 1 ∧ 1 ≤ 3 ∧ (0 : ℚ) ≤ 5/4 / 1 ∧
        (5 : ℚ)/4 / 1 ≤ ((3 : ℕ) : ℚ) - 1 ∧
        (5 : ℚ)/4 / 1 - ⌊(5 : ℚ)/4 / 1⌋ ≠ 0) ∧
      (computeVisibilities (5/4) 1 3).sum = 1 := by
  refine ⟨⟨by norm_num, by norm_num, by norm_num, by push_cast; norm_num,
    by norm_num⟩, ?_⟩
  exact (claim_C1_amended 3 (5/4) 1 (by norm_num) (by norm_num) (by norm_num)
    (by push_cast; norm_num)).2.1 (by norm_num)

/-- C2: all fields share the one `shuffleCounter` threaded through
`animateCryptoRevealFrame`.  When field A's reveal count increases, the
counter is bumped to `c + 1`; field B's next frame then sees a counter
ahead of its `lastShuffleCounter` and regenerates its full decoy array
from the random stream (at the stream position A left off), and
records the new counter (to `c + 1` exactly when B itself revealed
nothing new); and a field still inside its stagger delay has reveal
count 0, so this holds even for a field that has revealed nothing. -/
theorem claim_C2 (cryptoChars : List Char) (rand : ℕ → ℚ)
    (fA fB : CryptoField) (stA stB : CryptoFieldState) (c rctr : ℕ)
    (eA eB : ℚ)
    (hsync : stB.lastShuffleCounter = c)
    (hinc : stA.lastRevealCount < cryptoRevealCount fA eA) :
    (animateCryptoRevealFrame cryptoChars rand fA stA c rctr eA).2.1
        = c + 1 ∧
      (animateCryptoRevealFrame cryptoChars rand fB stB
          (animateCryptoRevealFrame cryptoChars rand fA stA c rctr eA).2.1
          (animateCryptoRevealFrame cryptoChars rand fA stA c rctr eA).2.2.1
          eB).1.randomChars =
        (regenRandomChars cryptoChars rand fB.finalChars
          (animateCryptoRevealFrame cryptoChars rand fA stA c rctr
            eA).2.2.1).1 ∧
      (cryptoRevealCount fB eB ≤ stB.lastRevealCount →
        (animateCryptoRevealFrame cryptoChars rand fB stB
            (animateCryptoRevealFrame cryptoChars rand fA stA c rctr eA).2.1
            (animateCryptoRevealFrame cryptoChars rand fA stA c rctr eA).2.2.1
            eB).1.lastShuffleCounter = c + 1) ∧
      (eB ≤ fB.startDelay → cryptoRevealCount fB eB = 0) := by
  have h1 : (animateCryptoRevealFrame cryptoChars rand fA stA c rctr eA).2.1
      = c + 1 := by
    simp only [animateCryptoRevealFrame, if_pos hinc]
  refine ⟨h1, ?_, ?_, ?_⟩
  · rw [h1]
    by_cases hB : stB.lastRevealCount < cryptoRevealCount fB eB
    · simp only [animateCryptoRevealFrame, if_pos hB]
      rw [if_pos (by omega)]
    · simp only [animateCryptoRevealFrame, if_neg hB]
      rw [if_pos (by omega)]
  · intro hBle
    rw [h1]
    have hB : ¬(stB.lastRevealCount < cryptoRevealCount fB eB) := by omega
    simp only [animateCryptoRevealFrame, if_neg hB]
    rw [if_pos (by omega)]
  · intro hdelay
    have hp : cryptoProgress fB eB = 0 := by
      unfold cryptoProgress
      rw [if_neg (not_lt.mpr hdelay)]
    unfold cryptoRevealCount
    rw [hp]
    norm_num [easeOutCubic]

theorem claim_C2_witness :
    ((⟨0, 0, ['#']⟩ : CryptoFieldState).lastShuffleCounter = 0 ∧
        (⟨0, 0, ['#']⟩ : CryptoFieldState).lastRevealCount
          < cryptoRevealCount ⟨['a'], 100, 0⟩ 100) ∧
      (animateCryptoRevealFrame ['#'] (fun _ => 0) ⟨['a'], 100, 0⟩
        ⟨0, 0, ['#']⟩ 0 0 100).2.1 = 0 + 1 := by
  have hrc : cryptoRevealCount ⟨['a'], 100, 0⟩ 100 = 1 := by
    norm_num [cryptoRevealCount, cryptoProgress, easeOutCubic]
  refine ⟨⟨rfl, by rw [hrc]; norm_num⟩, ?_⟩
  exact (claim_C2 ['#'] (fun _ => 0) ⟨['a'], 100, 0⟩ ⟨['x'], 100, 50⟩
    ⟨0, 0, ['#']⟩ ⟨0, 0, ['#']⟩ 0 0 100 10 rfl (by rw [hrc]; norm_num)).1

theorem animateEmojiRainFrame_length (h w dt : ℚ) (rand : ℕ → ℚ) :
    ∀ (l : List Drop) (k : ℕ),
      ((animateEmojiRainFrame h w dt rand l k).1).length = l.length := by
  intro l
  induction l with
  | nil => intro k; rfl
  | cons d rest ih =>
      intro k
      simp only [animateEmojiRainFrame, List.length_cons, ih]

theorem rainFrames_length (h w dt : ℚ) (rand : ℕ → ℚ) :
    ∀ (n : ℕ) (s : List Drop × ℕ),
      ((rainFrames h w dt rand n s).1).length = s.1.length := by
  intro n
  induction n with
  | zero => intro s; rfl
  | succ n ih =>
      intro s
      rw [rainFrames, ih, animateEmojiRainFrame_length]

theorem animateStarfieldFrame_length (h w dt : ℚ) (rand : ℕ → ℚ) :
    ∀ (l : List StarDot) (k : ℕ),
      ((animateStarfieldFrame h w dt rand l k).1).length = l.length := by
  intro l
  induction l with
  | nil => intro k; rfl
  | cons s rest ih =>
      intro k
      simp only [animateStarfieldFrame, List.length_cons, ih]

theorem starFrames_length (h w dt : ℚ) (rand : ℕ → ℚ) :
    ∀ (n : ℕ) (s : List StarDot × ℕ),
      ((starFrames h w dt rand n s).1).length = s.1.length := by
  intro n
  induction n with
  | zero => intro s; rfl
  | succ n ih =>
      intro s
      rw [starFrames, ih, animateStarfieldFrame_length]

/-- C7: the rain pool is seeded with `max(30, min(70, ⌊width/18⌋))`
drops and the starfield with `max(80, min(160, ⌊width/6⌋))` dots; any
number of animation frames maps the pools in place, so the live entity
count equals the count at spawn time; a drop that crosses the bottom is
recycled above the viewport (negative `y`, drawing exactly 5 fresh
randoms, keeping its glyph and scale), and likewise a star is recycled
to the top, never removed. -/
theorem claim_C7 (chars : List Char) (w h dt : ℚ) (rand : ℕ → ℚ)
    (hch : chars ≠ []) (hrand : ∀ i, 0 ≤ rand i ∧ rand i < 1)
    (hh : 0 ≤ h) :
    (startEmojiRain chars w h rand).length
        = (max 30 (min 70 ⌊w / 18⌋)).toNat ∧
      (∀ (n k : ℕ),
        ((rainFrames h w dt rand n (startEmojiRain chars w h rand, k)).1).length
          = (max 30 (min 70 ⌊w / 18⌋)).toNat) ∧
      (startStarfield w h rand).length = (max 80 (min 160 ⌊w / 6⌋)).toNat ∧
      (∀ (n k : ℕ),
        ((starFrames h w dt rand n (startStarfield w h rand, k)).1).length
          = (max 80 (min 160 ⌊w / 6⌋)).toNat) ∧
      (∀ (d : Drop) (k : ℕ), h + 200 < d.y + d.speed * dt →
        ((rainTickDrop h w dt rand k d).1).y < 0 ∧
          ((rainTickDrop h w dt rand k d).1).glyph = d.glyph ∧
          ((rainTickDrop h w dt rand k d).1).scale = d.scale ∧
          (rainTickDrop h w dt rand k d).2 = k + 5) ∧
      ∀ (s : StarDot) (k : ℕ), h + 10 < s.y + s.speed * dt →
        ((starTick h w dt rand k s).1).y < 0 := by
  have hrain : (startEmojiRain chars w h rand).length
      = (max 30 (min 70 ⌊w / 18⌋)).toNat := by
    unfold startEmojiRain rainDropCount
    rw [if_neg hch]
    simp
  have hstar : (startStarfield w h rand).length
      = (max 80 (min 160 ⌊w / 6⌋)).toNat := by
    unfold startStarfield starCount
    simp
  refine ⟨hrain, fun n k => by rw [rainFrames_length]; exact hrain,
    hstar, fun n k => by rw [starFrames_length]; exact hstar, ?_, ?_⟩
  · intro d k hcross
    simp only [rainTickDrop]
    rw [if_pos hcross]
    refine ⟨?_, rfl, rfl, rfl⟩
    have h1 : 0 ≤ rand k * (h * (3/5)) :=
      mul_nonneg (hrand k).1 (by linarith)
    simp only
    linarith
  · intro s k hcross
    simp only [starTick]
    rw [if_pos hcross]
    have h1 : 0 ≤ rand k * 40 := mul_nonneg (hrand k).1 (by norm_num)
    simp only
    linarith

theorem claim_C7_witness :
    ((['x'] : List Char) ≠ [] ∧ (∀ i : ℕ, 0 ≤ (0 : ℚ) ∧ (0 : ℚ) < 1) ∧
        (0 : ℚ) ≤ 600) ∧
      (startEmojiRain ['x'] 900 600 (fun _ => 0)).length
        = (max 30 (min 70 ⌊(900 : ℚ) / 18⌋)).toNat := by
  refine ⟨⟨by simp, fun i => ⟨le_refl 0, by norm_num⟩, by norm_num⟩, ?_⟩
  exact (claim_C7 ['x'] 900 600 (1/60) (fun _ => 0) (by simp)
    (fun i => ⟨le_refl 0, by norm_num⟩) (by norm_num)).1

set_option maxHeartbeats 2000000 in
theorem hsvToRGBpre_rgbToHSV (r g b : ℚ) (h0r : 0 ≤ r) (h0g : 0 ≤ g)
    (h0b : 0 ≤ b) :
    hsvToRGBpre (rgbToHSV r g b).h (rgbToHSV r g b).s (rgbToHSV r g b).v
      = (r / 255 * 255, g / 255 * 255, b / 255 * 255) := by
  simp only [rgbToHSV, hsvToRGBpre]
  set r' := r / 255 with hr'
  set g' := g / 255 with hg'
  set b' := b / 255 with hb'
  set mx := max r' (max g' b') with hmx
  set mn := min r' (min g' b') with hmn
  have hr0 : 0 ≤ r' := div_nonneg h0r (by norm_num)
  have hg0 : 0 ≤ g' := div_nonneg h0g (by norm_num)
  have hb0 : 0 ≤ b' := div_nonneg h0b (by norm_num)
  have hrle : r' ≤ mx := le_max_left _ _
  have hgle : g' ≤ mx := le_trans (le_max_left _ _) (le_max_right _ _)
  have hble : b' ≤ mx := le_trans (le_max_right _ _) (le_max_right _ _)
  have hrge : mn ≤ r' := min_le_left _ _
  have hgge : mn ≤ g' := le_trans (min_le_right _ _) (min_le_left _ _)
  have hbge : mn ≤ b' := le_trans (min_le_right _ _) (min_le_right _ _)
  have hmn0 : 0 ≤ mn := le_min hr0 (le_min hg0 hb0)
  by_cases hne : mx ≠ mn
  case neg =>
    -- gray: max = min forces all three channels equal
    push_neg at hne
    have hxr : mx = r' := le_antisymm (hne ▸ hrge) hrle
    have hxg : mx = g' := le_antisymm (hne ▸ hgge) hgle
    have hxb : mx = b' := le_antisymm (hne ▸ hbge) hble
    have hcond : ¬(mx ≠ mn) := by simpa using hne
    have hs0 : (if mx = 0 then 0 else (mx - mn) / mx) = (0 : ℚ) := by
      split_ifs with h
      · rfl
      · rw [hne, sub_self, zero_div]
    simp only [if_neg hcond, hs0]
    have hE : (0 : ℚ) * 360 / 360 * 6 = 0 := by norm_num
    rw [hE]
    have hF : ⌊(0 : ℚ)⌋ = 0 := Int.floor_zero
    rw [hF]
    norm_num
    exact ⟨hxr, hxg, hxb⟩
  case pos =>
    have hmxmn : mn ≤ mx := le_trans hrge hrle
    have hlt : mn < mx := lt_of_le_of_ne hmxmn (Ne.symm hne)
    have hmx0 : 0 < mx := lt_of_le_of_lt hmn0 hlt
    have hd : 0 < mx - mn := by linarith
    have hsval : (if mx = 0 then 0 else (mx - mn) / mx) = (mx - mn) / mx :=
      if_neg (ne_of_gt hmx0)
    simp only [if_pos hne, hsval]
    by_cases hxr : mx = r'
    · simp only [if_pos hxr]
      by_cases hgb : g' < b'
      · -- sector 5: red is max, blue above green
        simp only [if_pos hgb]
        have hmng : mn = g' := by
          rw [hmn, min_comm g' b', min_eq_right hgb.le,
            min_eq_right (hxr ▸ hgle)]
        have hu_lo : (-1 : ℚ) ≤ (g' - b') / (mx - mn) := by
          rw [le_div_iff hd]
          linarith
        have hu_hi : (g' - b') / (mx - mn) < 0 :=
          div_neg_of_neg_of_pos (by linarith) hd
        have hEeq : ((g' - b') / (mx - mn) + 6) / 6 * 360 / 360 * 6
            = (g' - b') / (mx - mn) + 6 := by ring
        rw [hEeq]
        have hfloor : ⌊(g' - b') / (mx - mn) + 6⌋ = 5 := by
          rw [Int.floor_eq_iff]
          constructor
          · push_cast
            linarith
          · push_cast
            linarith
        rw [hfloor]
        norm_num
        refine ⟨?_, ?_, ?_⟩
        · rw [← hxr]
        · rw [hmng]
          field_simp
        · rw [hmng] at hd ⊢
          field_simp
          try ring
      · -- sectors 0/1: red is max, green at or above blue
        simp only [if_neg hgb]
        have hble2 : b' ≤ g' := not_lt.mp hgb
        have hmnb : mn = b' := by
          rw [hmn, min_eq_right hble2, min_eq_right (hxr ▸ hble)]
        have hu_lo : (0 : ℚ) ≤ (g' - b') / (mx - mn) :=
          div_nonneg (by linarith) hd.le
        have hu_hi : (g' - b') / (mx - mn) ≤ 1 := by
          rw [div_le_one hd]
          linarith [hxr ▸ hgle]
        have hEeq : ((g' - b') / (mx - mn) + 0) / 6 * 360 / 360 * 6
            = (g' - b') / (mx - mn) := by ring
        rw [hEeq]
        by_cases hu1 : (g' - b') / (mx - mn) < 1
        · -- sector 0
          have hfloor : ⌊(g' - b') / (mx - mn)⌋ = 0 := by
            rw [Int.floor_eq_iff]
            constructor
            · push_cast; linarith
            · push_cast; linarith
          rw [hfloor]
          norm_num
          refine ⟨?_, ?_, ?_⟩
          · rw [← hxr]
          · rw [hmnb] at hd ⊢
            field_simp
            try ring
          · rw [hmnb]
            field_simp
        · -- sector-0/1 boundary: green equals red
          have hueq : (g' - b') / (mx - mn) = 1 :=
            le_antisymm hu_hi (not_lt.mp hu1)
          have hgmx : g' = mx := by
            rw [div_eq_one_iff_eq hd.ne'] at hueq
            rw [hmnb] at hueq
            linarith
          rw [hueq]
          have hfloor : ⌊(1 : ℚ)⌋ = 1 := Int.floor_one
          rw [hfloor]
          norm_num
          refine ⟨?_, ?_, ?_⟩
          · rw [← hxr]
          · rw [← hgmx]
          · rw [hmnb]
            field_simp
    · -- green or blue is max
      simp only [if_neg hxr]
      have hrlt : r' < mx := lt_of_le_of_ne hrle (fun h => hxr h.symm)
      by_cases hxg : mx = g'
      · -- sectors 1/2/3: green is max (and red is not)
        simp only [if_pos hxg]
        have hbleg : b' ≤ g' := hxg ▸ hble
        rcases lt_trichotomy b' r' with hbr | hbr | hbr
        · -- sector 1: blue below red
          have hmnb : mn = b' := by
            rw [hmn, min_eq_right hbleg, min_eq_right hbr.le]
          have hu_lo : (-1 : ℚ) < (b' - r') / (mx - mn) := by
            rw [lt_div_iff hd]
            rw [hmnb]
            linarith
          have hu_hi : (b' - r') / (mx - mn) < 0 :=
            div_neg_of_neg_of_pos (by linarith) hd
          have hEeq : ((b' - r') / (mx - mn) + 2) / 6 * 360 / 360 * 6
              = (b' - r') / (mx - mn) + 2 := by ring
          rw [hEeq]
          have hfloor : ⌊(b' - r') / (mx - mn) + 2⌋ = 1 := by
            rw [Int.floor_eq_iff]
            constructor
            · push_cast; linarith
            · push_cast; linarith
          rw [hfloor]
          norm_num
          refine ⟨?_, ?_, ?_⟩
          · rw [hmnb] at hd ⊢
            field_simp
            try ring
          · rw [← hxg]
          · rw [hmnb]
            field_simp
        · -- sector 1/2 boundary: blue equals red
          have hmnr : mn = r' := by
            rw [hmn, min_eq_right hbleg, ← hbr, min_self]
          have hueq : (b' - r') / (mx - mn) = 0 := by
            rw [hbr, sub_self, zero_div]
          have hEeq : ((b' - r') / (mx - mn) + 2) / 6 * 360 / 360 * 6
              = (b' - r') / (mx - mn) + 2 := by ring
          rw [hEeq, hueq]
          have hfloor : ⌊(0 : ℚ) + 2⌋ = 2 := by norm_num
          rw [hfloor]
          norm_num
          refine ⟨?_, ?_, ?_⟩
          · rw [hmnr]
            field_simp
          · rw [← hxg]
          · rw [hmnr] at hd ⊢
            rw [← hbr]
            field_simp
            try ring
        · -- sectors 2/3: blue above red
          have hmnr : mn = r' := by
            rw [hmn, min_eq_right hbleg, min_eq_left hbr.le]
          have hu_lo : (0 : ℚ) < (b' - r') / (mx - mn) :=
            div_pos (by linarith) hd
          have hu_hi : (b' - r') / (mx - mn) ≤ 1 := by
            rw [div_le_one hd]
            rw [hmnr]
            linarith [hxg ▸ hble]
          have hEeq : ((b' - r') / (mx - mn) + 2) / 6 * 360 / 360 * 6
              = (b' - r') / (mx - mn) + 2 := by ring
          rw [hEeq]
          by_cases hu1 : (b' - r') / (mx - mn) < 1
          · -- sector 2
            have hfloor : ⌊(b' - r') / (mx - mn) + 2⌋ = 2 := by
              rw [Int.floor_eq_iff]
              constructor
              · push_cast; linarith
              · push_cast; linarith
            rw [hfloor]
            norm_num
            refine ⟨?_, ?_, ?_⟩
            · rw [hmnr]
              field_simp
            · rw [← hxg]
            · rw [hmnr] at hd ⊢
              field_simp
              try ring
          · -- sector 2/3 boundary: blue equals green
            have hueq : (b' - r') / (mx - mn) = 1 :=
              le_antisymm hu_hi (not_lt.mp hu1)
            have hbmx : b' = mx := by
              rw [div_eq_one_iff_eq hd.ne'] at hueq
              rw [hmnr] at hueq
              linarith
            rw [hueq]
            have hfloor : ⌊(1 : ℚ) + 2⌋ = 3 := by norm_num
            rw [hfloor]
            norm_num
            refine ⟨?_, ?_, ?_⟩
            · rw [hmnr]
              field_simp
            · rw [← hxg]
            · rw [← hbmx]
      · -- sectors 3/4: blue is max (neither red nor green is)
        simp only [if_neg hxg]
        have hxb : mx = b' := by
          rcases max_choice r' (max g' b') with h | h
          · exact absurd (hmx.trans h) hxr
          · rcases max_choice g' b' with h2 | h2
            · exact absurd (hmx.trans (h.trans h2)) hxg
            · rw [hmx, h, h2]
        have hglt : g' < mx := lt_of_le_of_ne hgle (fun h => hxg h.symm)
        rcases le_or_lt g' r' with hgr | hgr
        · -- sector 4: green at or below red
          have hgb2 : g' ≤ b' := by rw [← hxb]; exact hgle
          have hmng : mn = g' := by
            rw [hmn, min_eq_left hgb2, min_eq_right hgr]
          have hu_lo : (0 : ℚ) ≤ (r' - g') / (mx - mn) :=
            div_nonneg (by linarith) hd.le
          have hu_hi : (r' - g') / (mx - mn) < 1 := by
            rw [div_lt_one hd]
            rw [hmng]
            linarith
          have hEeq : ((r' - g') / (mx - mn) + 4) / 6 * 360 / 360 * 6
              = (r' - g') / (mx - mn) + 4 := by ring
          rw [hEeq]
          have hfloor : ⌊(r' - g') / (mx - mn) + 4⌋ = 4 := by
            rw [Int.floor_eq_iff]
            constructor
            · push_cast; linarith
            · push_cast; linarith
          rw [hfloor]
          norm_num
          refine ⟨?_, ?_, ?_⟩
          · rw [hmng] at hd ⊢
            field_simp
            try ring
          · rw [hmng]
            field_simp
          · rw [← hxb]
        · -- sector 3: green above red
          have hgb2 : g' ≤ b' := by rw [← hxb]; exact hgle
          have hmnr : mn = r' := by
            rw [hmn, min_eq_left hgb2, min_eq_left hgr.le]
          have hu_lo : (-1 : ℚ) < (r' - g') / (mx - mn) := by
            rw [lt_div_iff hd]
            rw [hmnr]
            linarith
          have hu_hi : (r' - g') / (mx - mn) < 0 :=
            div_neg_of_neg_of_pos (by linarith) hd
          have hEeq : ((r' - g') / (mx - mn) + 4) / 6 * 360 / 360 * 6
              = (r' - g') / (mx - mn) + 4 := by ring
          rw [hEeq]
          have hfloor : ⌊(r' - g') / (mx - mn) + 4⌋ = 3 := by
            rw [Int.floor_eq_iff]
            constructor
            · push_cast; linarith
            · push_cast; linarith
          rw [hfloor]
          norm_num
          refine ⟨?_, ?_, ?_⟩
          · rw [hmnr]
            field_simp
          · rw [hmnr] at hd ⊢
            field_simp
            try ring
          · rw [← hxb]


theorem jsMod_bounds (a : ℚ) : 0 ≤ jsMod a 360 ∧ jsMod a 360 < 360 := by
  unfold jsMod
  have h1 : (⌊a / 360⌋ : ℚ) * 360 ≤ a :=
    (le_div_iff (by norm_num : (0 : ℚ) < 360)).mp (Int.floor_le (a / 360))
  have h2 : a < ((⌊a / 360⌋ : ℚ) + 1) * 360 :=
    (div_lt_iff (by norm_num : (0 : ℚ) < 360)).mp (Int.lt_floor_add_one (a / 360))
  constructor <;> linarith

theorem jsMod_eval (x : ℚ) (k : ℤ) (h0 : 0 ≤ x) (h1 : x < 360) :
    jsMod (x + k * 360) 360 = x := by
  unfold jsMod
  have hdiv : (x + (k : ℚ) * 360) / 360 = x / 360 + (k : ℚ) := by
    field_simp
  have hfl : ⌊x / 360⌋ = 0 := by
    rw [Int.floor_eq_iff]
    constructor
    · push_cast
      positivity
    · push_cast
      linarith [div_lt_one (by norm_num : (0 : ℚ) < 360) |>.mpr h1]
  rw [hdiv, Int.floor_add_int, hfl]
  push_cast
  ring

theorem jsRound_bounds (x : ℚ) (h0 : 0 ≤ x) (h1 : x ≤ 255) :
    0 ≤ jsRound x ∧ jsRound x ≤ 255 := by
  unfold jsRound
  constructor
  · exact Int.le_floor.mpr (by push_cast; linarith)
  · have : ⌊x + 1/2⌋ < 256 := Int.floor_lt.mpr (by push_cast; linarith)
    omega

theorem jsRound_intCast (z : ℤ) : jsRound (z : ℚ) = z := by
  unfold jsRound
  rw [show ((z : ℚ) + 1/2) = (z : ℚ) + (1/2 : ℚ) from rfl, Int.floor_int_add]
  norm_num

theorem hexCharVal_le (c : Char) : hexCharVal c ≤ 15 := by
  unfold hexCharVal
  split_ifs <;> omega

theorem hexToRGB_bounds (s : String) :
    (0 ≤ (hexToRGB s).r ∧ (hexToRGB s).r ≤ 255) ∧
      (0 ≤ (hexToRGB s).g ∧ (hexToRGB s).g ≤ 255) ∧
      (0 ≤ (hexToRGB s).b ∧ (hexToRGB s).b ≤ 255) := by
  unfold hexToRGB
  split
  · rename_i a b c heq
    split_ifs
    · have h1 := hexCharVal_le a
      have h2 := hexCharVal_le b
      have h3 := hexCharVal_le c
      refine ⟨⟨?_, ?_⟩, ⟨?_, ?_⟩, ?_, ?_⟩ <;> simp <;> omega
    · norm_num
  · rename_i a b c d e f heq
    split_ifs
    · have h1 := hexCharVal_le a
      have h2 := hexCharVal_le b
      have h3 := hexCharVal_le c
      have h4 := hexCharVal_le d
      have h5 := hexCharVal_le e
      have h6 := hexCharVal_le f
      refine ⟨⟨?_, ?_⟩, ⟨?_, ?_⟩, ?_, ?_⟩ <;> simp <;> omega
    · norm_num
  · norm_num

set_option maxHeartbeats 1000000 in
theorem rgbToHSV_bounds (r g b : ℚ) (h0r : 0 ≤ r) (hr : r ≤ 255)
    (h0g : 0 ≤ g) (hg : g ≤ 255) (h0b : 0 ≤ b) (hb : b ≤ 255) :
    (0 ≤ (rgbToHSV r g b).h ∧ (rgbToHSV r g b).h < 360) ∧
      (0 ≤ (rgbToHSV r g b).s ∧ (rgbToHSV r g b).s ≤ 100) ∧
      (0 ≤ (rgbToHSV r g b).v ∧ (rgbToHSV r g b).v ≤ 100) := by
  simp only [rgbToHSV]
  set r' := r / 255 with hr'
  set g' := g / 255 with hg'
  set b' := b / 255 with hb'
  set mx := max r' (max g' b') with hmx
  set mn := min r' (min g' b') with hmn
  have hr0 : 0 ≤ r' := div_nonneg h0r (by norm_num)
  have hg0 : 0 ≤ g' := div_nonneg h0g (by norm_num)
  have hb0 : 0 ≤ b' := div_nonneg h0b (by norm_num)
  have hr1 : r' ≤ 1 := (div_le_one (by norm_num)).mpr hr
  have hg1 : g' ≤ 1 := (div_le_one (by norm_num)).mpr hg
  have hb1 : b' ≤ 1 := (div_le_one (by norm_num)).mpr hb
  have hrle : r' ≤ mx := le_max_left _ _
  have hgle : g' ≤ mx := le_trans (le_max_left _ _) (le_max_right _ _)
  have hble : b' ≤ mx := le_trans (le_max_right _ _) (le_max_right _ _)
  have hrge : mn ≤ r' := min_le_left _ _
  have hgge : mn ≤ g' := le_trans (min_le_right _ _) (min_le_left _ _)
  have hbge : mn ≤ b' := le_trans (min_le_right _ _) (min_le_right _ _)
  have hmn0 : 0 ≤ mn := le_min hr0 (le_min hg0 hb0)
  have hmx1 : mx ≤ 1 := max_le hr1 (max_le hg1 hb1)
  have hmx0 : 0 ≤ mx := le_trans hmn0 (le_trans hrge hrle)
  refine ⟨?_, ?_, ?_⟩
  · -- hue bounds
    by_cases hne : mx ≠ mn
    · have hd : 0 < mx - mn :=
        sub_pos.mpr (lt_of_le_of_ne (le_trans hrge hrle) (Ne.symm hne))
      simp only [if_pos hne]
      by_cases hxr : mx = r'
      · simp only [if_pos hxr]
        by_cases hgb : g' < b'
        · simp only [if_pos hgb]
          have hu_lo : (-1 : ℚ) ≤ (g' - b') / (mx - mn) := by
            rw [le_div_iff hd]
            linarith
          have hu_hi : (g' - b') / (mx - mn) < 0 :=
            div_neg_of_neg_of_pos (by linarith) hd
          constructor <;> nlinarith
        · simp only [if_neg hgb]
          have hu_lo : (0 : ℚ) ≤ (g' - b') / (mx - mn) :=
            div_nonneg (by linarith [not_lt.mp hgb]) hd.le
          have hu_hi : (g' - b') / (mx - mn) ≤ 1 := by
            rw [div_le_one hd]
            linarith
          constructor <;> nlinarith
      · simp only [if_neg hxr]
        have hu_lo : (-1 : ℚ) ≤ (b' - r') / (mx - mn) := by
          rw [le_div_iff hd]
          linarith
        have hu_hi : (b' - r') / (mx - mn) ≤ 1 := by
          rw [div_le_one hd]
          linarith
        have hu2_lo : (-1 : ℚ) ≤ (r' - g') / (mx - mn) := by
          rw [le_div_iff hd]
          linarith
        have hu2_hi : (r' - g') / (mx - mn) ≤ 1 := by
          rw [div_le_one hd]
          linarith
        by_cases hxg : mx = g'
        · simp only [if_pos hxg]
          constructor <;> nlinarith
        · simp only [if_neg hxg]
          constructor <;> nlinarith
    · simp only [if_neg hne]
      norm_num
  · -- saturation bounds
    split_ifs with h
    · norm_num
    · have hmxp : 0 < mx := lt_of_le_of_ne hmx0 (Ne.symm h)
      have hdiv0 : 0 ≤ (mx - mn) / mx :=
        div_nonneg (by linarith [le_trans hrge hrle]) hmxp.le
      have hdiv1 : (mx - mn) / mx ≤ 1 := by
        rw [div_le_one hmxp]
        linarith
      constructor <;> nlinarith
  · constructor <;> nlinarith

set_option maxHeartbeats 1000000 in
theorem hsvToRGBpre_bounds (h s v : ℚ) (hh0 : 0 ≤ h) (hh1 : h < 360)
    (hs0 : 0 ≤ s) (hs1 : s ≤ 100) (hv0 : 0 ≤ v) (hv1 : v ≤ 100) :
    (0 ≤ (hsvToRGBpre h s v).1 ∧ (hsvToRGBpre h s v).1 ≤ 255) ∧
      (0 ≤ (hsvToRGBpre h s v).2.1 ∧ (hsvToRGBpre h s v).2.1 ≤ 255) ∧
      (0 ≤ (hsvToRGBpre h s v).2.2 ∧ (hsvToRGBpre h s v).2.2 ≤ 255) := by
  simp only [hsvToRGBpre]
  have hf0 : (0 : ℚ) ≤ h / 360 * 6 - ⌊h / 360 * 6⌋ :=
    sub_nonneg.mpr (Int.floor_le _)
  have hf1 : h / 360 * 6 - ⌊h / 360 * 6⌋ < 1 := by
    linarith [Int.lt_floor_add_one (h / 360 * 6)]
  have hs'0 : (0 : ℚ) ≤ s / 100 := by positivity
  have hs'1 : s / 100 ≤ 1 := (div_le_one (by norm_num)).mpr hs1
  have hv'0 : (0 : ℚ) ≤ v / 100 := by positivity
  have hv'1 : v / 100 ≤ 1 := (div_le_one (by norm_num)).mpr hv1
  have hp0 : (0 : ℚ) ≤ v / 100 * (1 - s / 100) := by nlinarith
  have hp1 : v / 100 * (1 - s / 100) ≤ 1 := by nlinarith
  have hq0 : (0 : ℚ) ≤ v / 100 *
      (1 - (h / 360 * 6 - ⌊h / 360 * 6⌋) * (s / 100)) := by nlinarith
  have hq1 : v / 100 * (1 - (h / 360 * 6 - ⌊h / 360 * 6⌋) * (s / 100))
      ≤ 1 := by nlinarith
  have ht0 : (0 : ℚ) ≤ v / 100 *
      (1 - (1 - (h / 360 * 6 - ⌊h / 360 * 6⌋)) * (s / 100)) := by nlinarith
  have ht1 : v / 100 * (1 - (1 - (h / 360 * 6 - ⌊h / 360 * 6⌋)) * (s / 100))
      ≤ 1 := by nlinarith
  split_ifs <;>
    exact ⟨⟨by nlinarith, by nlinarith⟩, ⟨by nlinarith, by nlinarith⟩,
      by nlinarith, by nlinarith⟩

theorem hsvToRGB_bounds (h s v : ℚ) (hh0 : 0 ≤ h) (hh1 : h < 360)
    (hs0 : 0 ≤ s) (hs1 : s ≤ 100) (hv0 : 0 ≤ v) (hv1 : v ≤ 100) :
    (0 ≤ (hsvToRGB h s v).r ∧ (hsvToRGB h s v).r ≤ 255) ∧
      (0 ≤ (hsvToRGB h s v).g ∧ (hsvToRGB h s v).g ≤ 255) ∧
      (0 ≤ (hsvToRGB h s v).b ∧ (hsvToRGB h s v).b ≤ 255) := by
  obtain ⟨⟨a1, a2⟩, ⟨b1, b2⟩, c1, c2⟩ :=
    hsvToRGBpre_bounds h s v hh0 hh1 hs0 hs1 hv0 hv1
  unfold hsvToRGB
  exact ⟨jsRound_bounds _ a1 a2, jsRound_bounds _ b1 b2,
    jsRound_bounds _ c1 c2⟩

theorem natToHexCharsAux_eq (n : ℕ) : ∀ (f1 f2 : ℕ), n < f1 → n < f2 →
    natToHexCharsAux f1 n = natToHexCharsAux f2 n := by
  induction n using Nat.strong_induction_on with
  | _ n ih =>
      intro f1 f2 h1 h2
      match f1, f2 with
      | fa + 1, fb + 1 =>
          simp only [natToHexCharsAux]
          split_ifs with hlt
          · rfl
          · have hrec : n / 16 < n := Nat.div_lt_self (by omega) (by norm_num)
            have hfa : n / 16 < fa := by omega
            have hfb : n / 16 < fb := by omega
            rw [ih (n / 16) hrec fa fb hfa hfb]

theorem natToHexChars_append (a d : ℕ) (hd : d < 16) (ha : 0 < a) :
    natToHexChars (a * 16 + d) = natToHexChars a ++ [hexDigitChar d] := by
  unfold natToHexChars
  have h16 : ¬(a * 16 + d < 16) := by omega
  rw [show a * 16 + d + 1 = (a * 16 + d) + 1 from rfl]
  simp only [natToHexCharsAux, if_neg h16]
  have hdiv : (a * 16 + d) / 16 = a := by omega
  have hmod : (a * 16 + d) % 16 = d := by omega
  rw [hdiv, hmod,
    natToHexCharsAux_eq a (a * 16 + d) (a + 1) (by omega) (by omega)]
  simp only [natToHexCharsAux]

theorem hexDigitChar_spec : ∀ k, k < 16 →
    isHexChar (hexDigitChar k) = true ∧ hexCharVal (hexDigitChar k) = k := by
  decide

theorem natToHexChars_24bit (r g b : ℕ) (hr : r < 256) (hg : g < 256)
    (hb : b < 256) :
    natToHexChars (2 ^ 24 + r * 65536 + g * 256 + b) =
      '1' :: [hexDigitChar (r / 16), hexDigitChar (r % 16),
        hexDigitChar (g / 16), hexDigitChar (g % 16),
        hexDigitChar (b / 16), hexDigitChar (b % 16)] := by
  have e1 : 2 ^ 24 + r * 65536 + g * 256 + b =
      (((((16 + r / 16) * 16 + r % 16) * 16 + g / 16) * 16 + g % 16) * 16
          + b / 16) * 16 + b % 16 := by omega
  rw [e1]
  rw [natToHexChars_append _ _ (by omega) (by positivity)]
  rw [natToHexChars_append _ _ (by omega) (by positivity)]
  rw [natToHexChars_append _ _ (by omega) (by positivity)]
  rw [natToHexChars_append _ _ (by omega) (by positivity)]
  rw [natToHexChars_append _ _ (by omega) (by positivity)]
  have e2 : (16 : ℕ) + r / 16 = 1 * 16 + r / 16 := by omega
  rw [e2, natToHexChars_append _ _ (by omega) (by norm_num)]
  rfl

theorem hexToRGB_mk6 (a b c d e f : Char)
    (h : (isHexChar a && isHexChar b && isHexChar c && isHexChar d &&
        isHexChar e && isHexChar f) = true) :
    hexToRGB (String.mk ['#', a, b, c, d, e, f]) =
      RGB.mk (16 * (hexCharVal a : ℤ) + hexCharVal b)
        (16 * (hexCharVal c : ℤ) + hexCharVal d)
        (16 * (hexCharVal e : ℤ) + hexCharVal f) := by
  have hstep : hexToRGB (String.mk ['#', a, b, c, d, e, f])
      = if isHexChar a && isHexChar b && isHexChar c && isHexChar d &&
            isHexChar e && isHexChar f then
          RGB.mk (16 * (hexCharVal a : ℤ) + hexCharVal b)
            (16 * (hexCharVal c : ℤ) + hexCharVal d)
            (16 * (hexCharVal e : ℤ) + hexCharVal f)
        else RGB.mk 0 0 0 := rfl
  rw [hstep, if_pos h]

theorem validHexColor_mk6 (a b c d e f : Char)
    (h : (isHexChar a && isHexChar b && isHexChar c && isHexChar d &&
        isHexChar e && isHexChar f) = true) :
    validHexColor (String.mk ['#', a, b, c, d, e, f]) = true := by
  have hstep : validHexColor (String.mk ['#', a, b, c, d, e, f])
      = (false || (isHexChar a && isHexChar b && isHexChar c && isHexChar d &&
          isHexChar e && isHexChar f)) := rfl
  rw [hstep, h]
  rfl

theorem hsvToHex_shape (hsv : HSV) (hh0 : 0 ≤ hsv.h) (hh1 : hsv.h < 360)
    (hs0 : 0 ≤ hsv.s) (hs1 : hsv.s ≤ 100) (hv0 : 0 ≤ hsv.v) (hv1 : hsv.v ≤ 100) :
    hsvToHex hsv = String.mk ['#',
      hexDigitChar ((hsvToRGB hsv.h hsv.s hsv.v).r.toNat / 16),
      hexDigitChar ((hsvToRGB hsv.h hsv.s hsv.v).r.toNat % 16),
      hexDigitChar ((hsvToRGB hsv.h hsv.s hsv.v).g.toNat / 16),
      hexDigitChar ((hsvToRGB hsv.h hsv.s hsv.v).g.toNat % 16),
      hexDigitChar ((hsvToRGB hsv.h hsv.s hsv.v).b.toNat / 16),
      hexDigitChar ((hsvToRGB hsv.h hsv.s hsv.v).b.toNat % 16)] := by
  obtain ⟨⟨a1, a2⟩, ⟨b1, b2⟩, c1, c2⟩ :=
    hsvToRGB_bounds hsv.h hsv.s hsv.v hh0 hh1 hs0 hs1 hv0 hv1
  simp only [hsvToHex]
  set c := hsvToRGB hsv.h hsv.s hsv.v with hc
  have he : (2 ^ 24 + c.r * 65536 + c.g * 256 + c.b).toNat
      = 2 ^ 24 + c.r.toNat * 65536 + c.g.toNat * 256 + c.b.toNat := by omega
  rw [he, natToHexChars_24bit _ _ _ (by omega) (by omega) (by omega)]
  rfl

theorem hexToHSV_bounds (s : String) :
    (0 ≤ (hexToHSV s).h ∧ (hexToHSV s).h < 360) ∧
      (0 ≤ (hexToHSV s).s ∧ (hexToHSV s).s ≤ 100) ∧
      (0 ≤ (hexToHSV s).v ∧ (hexToHSV s).v ≤ 100) := by
  obtain ⟨⟨r0, r1⟩, ⟨g0, g1⟩, b0, b1⟩ := hexToRGB_bounds s
  simp only [hexToHSV]
  exact rgbToHSV_bounds _ _ _ (by exact_mod_cast r0) (by exact_mod_cast r1)
    (by exact_mod_cast g0) (by exact_mod_cast g1)
    (by exact_mod_cast b0) (by exact_mod_cast b1)

theorem hueDelta_bounds (a b : ℚ) (ha0 : 0 ≤ a) (ha1 : a < 360)
    (hb0 : 0 ≤ b) (hb1 : b < 360) :
    -180 ≤ hueDelta a b ∧ hueDelta a b ≤ 180 := by
  simp only [hueDelta]
  split_ifs <;> constructor <;> linarith

theorem hsvToRGB_rgbToHSV (r g b : ℤ) (h0r : 0 ≤ r) (hr : r ≤ 255)
    (h0g : 0 ≤ g) (hg : g ≤ 255) (h0b : 0 ≤ b) (hb : b ≤ 255) :
    hsvToRGB (rgbToHSV (r : ℚ) (g : ℚ) (b : ℚ)).h (rgbToHSV (r : ℚ) (g : ℚ) (b : ℚ)).s
      (rgbToHSV (r : ℚ) (g : ℚ) (b : ℚ)).v = RGB.mk r g b := by
  have hpre := hsvToRGBpre_rgbToHSV (r : ℚ) (g : ℚ) (b : ℚ)
    (by exact_mod_cast h0r) (by exact_mod_cast h0g) (by exact_mod_cast h0b)
  simp only [hsvToRGB]
  rw [hpre]
  show RGB.mk (jsRound ((r : ℚ) / 255 * 255)) (jsRound ((g : ℚ) / 255 * 255))
      (jsRound ((b : ℚ) / 255 * 255)) = RGB.mk r g b
  rw [div_mul_cancel₀ _ (by norm_num : (255 : ℚ) ≠ 0),
    div_mul_cancel₀ _ (by norm_num : (255 : ℚ) ≠ 0),
    div_mul_cancel₀ _ (by norm_num : (255 : ℚ) ≠ 0),
    jsRound_intCast, jsRound_intCast, jsRound_intCast]

theorem hexToRGB_hsvToHex (hsv : HSV) (hh0 : 0 ≤ hsv.h) (hh1 : hsv.h < 360)
    (hs0 : 0 ≤ hsv.s) (hs1 : hsv.s ≤ 100) (hv0 : 0 ≤ hsv.v) (hv1 : hsv.v ≤ 100) :
    hexToRGB (hsvToHex hsv) = hsvToRGB hsv.h hsv.s hsv.v := by
  obtain ⟨⟨a1, a2⟩, ⟨b1, b2⟩, c1, c2⟩ :=
    hsvToRGB_bounds hsv.h hsv.s hsv.v hh0 hh1 hs0 hs1 hv0 hv1
  rw [hsvToHex_shape hsv hh0 hh1 hs0 hs1 hv0 hv1]
  set c := hsvToRGB hsv.h hsv.s hsv.v with hc
  have d1 : c.r.toNat / 16 < 16 := by omega
  have d2 : c.r.toNat % 16 < 16 := by omega
  have d3 : c.g.toNat / 16 < 16 := by omega
  have d4 : c.g.toNat % 16 < 16 := by omega
  have d5 : c.b.toNat / 16 < 16 := by omega
  have d6 : c.b.toNat % 16 < 16 := by omega
  obtain ⟨i1, v1⟩ := hexDigitChar_spec _ d1
  obtain ⟨i2, v2⟩ := hexDigitChar_spec _ d2
  obtain ⟨i3, v3⟩ := hexDigitChar_spec _ d3
  obtain ⟨i4, v4⟩ := hexDigitChar_spec _ d4
  obtain ⟨i5, v5⟩ := hexDigitChar_spec _ d5
  obtain ⟨i6, v6⟩ := hexDigitChar_spec _ d6
  rw [hexToRGB_mk6 _ _ _ _ _ _ (by rw [i1, i2, i3, i4, i5, i6]; rfl)]
  rw [v1, v2, v3, v4, v5, v6]
  show RGB.mk _ _ _ = RGB.mk c.r c.g c.b
  simp only [RGB.mk.injEq]
  refine ⟨?_, ?_, ?_⟩ <;> omega

theorem hexToRGB_roundTrip (r g b : ℤ) (h0r : 0 ≤ r) (hr : r ≤ 255)
    (h0g : 0 ≤ g) (hg : g ≤ 255) (h0b : 0 ≤ b) (hb : b ≤ 255) :
    hexToRGB (hsvToHex (rgbToHSV (r : ℚ) (g : ℚ) (b : ℚ))) = RGB.mk r g b := by
  obtain ⟨⟨q1, q2⟩, ⟨q3, q4⟩, q5, q6⟩ := rgbToHSV_bounds (r : ℚ) (g : ℚ) (b : ℚ)
    (by exact_mod_cast h0r) (by exact_mod_cast hr) (by exact_mod_cast h0g)
    (by exact_mod_cast hg) (by exact_mod_cast h0b) (by exact_mod_cast hb)
  rw [hexToRGB_hsvToHex _ q1 q2 q3 q4 q5 q6]
  exact hsvToRGB_rgbToHSV r g b h0r hr h0g hg h0b hb

theorem blendedHSV_zero (s1 s2 : String) : blendedHSV s1 s2 0 = hexToHSV s1 := by
  obtain ⟨⟨hh0, hh1⟩, _, _⟩ := hexToHSV_bounds s1
  simp only [blendedHSV]
  have e1 : (hexToHSV s1).h + hueDelta (hexToHSV s1).h (hexToHSV s2).h * 0 + 360
      = (hexToHSV s1).h + ((1 : ℤ) : ℚ) * 360 := by push_cast; ring
  have e2 : (hexToHSV s1).s + ((hexToHSV s2).s - (hexToHSV s1).s) * 0
      = (hexToHSV s1).s := by ring
  have e3 : (hexToHSV s1).v + ((hexToHSV s2).v - (hexToHSV s1).v) * 0
      = (hexToHSV s1).v := by ring
  rw [e1, jsMod_eval _ 1 hh0 hh1, e2, e3]

theorem blendedHSV_one (s1 s2 : String) : blendedHSV s1 s2 1 = hexToHSV s2 := by
  obtain ⟨⟨h10, h11⟩, _, _⟩ := hexToHSV_bounds s1
  obtain ⟨⟨h20, h21⟩, _, _⟩ := hexToHSV_bounds s2
  simp only [blendedHSV]
  have e2 : (hexToHSV s1).s + ((hexToHSV s2).s - (hexToHSV s1).s) * 1
      = (hexToHSV s2).s := by ring
  have e3 : (hexToHSV s1).v + ((hexToHSV s2).v - (hexToHSV s1).v) * 1
      = (hexToHSV s2).v := by ring
  rw [e2, e3]
  simp only [hueDelta]
  split_ifs with hd1 hd2
  · have e1 : (hexToHSV s1).h + ((hexToHSV s2).h - (hexToHSV s1).h - 360) * 1 + 360
        = (hexToHSV s2).h + ((0 : ℤ) : ℚ) * 360 := by push_cast; ring
    rw [e1, jsMod_eval _ 0 h20 h21]
  · have e1 : (hexToHSV s1).h + ((hexToHSV s2).h - (hexToHSV s1).h + 360) * 1 + 360
        = (hexToHSV s2).h + ((2 : ℤ) : ℚ) * 360 := by push_cast; ring
    rw [e1, jsMod_eval _ 2 h20 h21]
  · have e1 : (hexToHSV s1).h + ((hexToHSV s2).h - (hexToHSV s1).h) * 1 + 360
        = (hexToHSV s2).h + ((1 : ℤ) : ℚ) * 360 := by push_cast; ring
    rw [e1, jsMod_eval _ 1 h20 h21]

theorem blendedHSV_bounds (s1 s2 : String) (ratio : ℚ)
    (hr0 : 0 ≤ ratio) (hr1 : ratio ≤ 1) :
    (0 ≤ (blendedHSV s1 s2 ratio).h ∧ (blendedHSV s1 s2 ratio).h < 360) ∧
      (0 ≤ (blendedHSV s1 s2 ratio).s ∧ (blendedHSV s1 s2 ratio).s ≤ 100) ∧
      (0 ≤ (blendedHSV s1 s2 ratio).v ∧ (blendedHSV s1 s2 ratio).v ≤ 100) := by
  obtain ⟨_, ⟨s10, s11⟩, v10, v11⟩ := hexToHSV_bounds s1
  obtain ⟨_, ⟨s20, s21⟩, v20, v21⟩ := hexToHSV_bounds s2
  simp only [blendedHSV]
  refine ⟨jsMod_bounds _, ⟨?_, ?_⟩, ?_, ?_⟩ <;>
    nlinarith [mul_nonneg hr0 s20, mul_nonneg hr0 v20,
      mul_nonneg (sub_nonneg.mpr hr1) s10, mul_nonneg (sub_nonneg.mpr hr1) v10,
      mul_nonneg hr0 (sub_nonneg.mpr s21), mul_nonneg hr0 (sub_nonneg.mpr v21),
      mul_nonneg (sub_nonneg.mpr hr1) (sub_nonneg.mpr s11),
      mul_nonneg (sub_nonneg.mpr hr1) (sub_nonneg.mpr v11)]

/-- C4: for any two hex color inputs, blending at ratio 0 yields the
first color exactly and blending at ratio 1 the second color exactly as
24-bit colors (parsing the blended string returns the original parsed
color), the hex → HSV → hex round trip is the identity on every 24-bit
color, and the applied hue delta always lies in [-180, 180] degrees, so
the interpolation never traverses the long arc of the hue circle. -/
theorem claim_C4 (s1 s2 : String) (h1 : validHexColor s1 = true)
    (h2 : validHexColor s2 = true) :
    hexToRGB (blendColorsHSV s1 s2 0) = hexToRGB s1 ∧
      hexToRGB (blendColorsHSV s1 s2 1) = hexToRGB s2 ∧
      (∀ r g b : ℤ, 0 ≤ r → r ≤ 255 → 0 ≤ g → g ≤ 255 → 0 ≤ b → b ≤ 255 →
        hexToRGB (hsvToHex (rgbToHSV (r : ℚ) (g : ℚ) (b : ℚ))) = RGB.mk r g b) ∧
      -180 ≤ hueDelta (hexToHSV s1).h (hexToHSV s2).h ∧
      hueDelta (hexToHSV s1).h (hexToHSV s2).h ≤ 180 := by
  obtain ⟨⟨a0, a1⟩, _, _⟩ := hexToHSV_bounds s1
  obtain ⟨⟨b0, b1⟩, _, _⟩ := hexToHSV_bounds s2
  refine ⟨?_, ?_,
    fun r g b c1 c2 c3 c4 c5 c6 => hexToRGB_roundTrip r g b c1 c2 c3 c4 c5 c6,
    (hueDelta_bounds _ _ a0 a1 b0 b1).1, (hueDelta_bounds _ _ a0 a1 b0 b1).2⟩
  · unfold blendColorsHSV
    rw [blendedHSV_zero]
    obtain ⟨⟨r0, r1⟩, ⟨g0, g1⟩, p0, p1⟩ := hexToRGB_bounds s1
    simp only [hexToHSV]
    rw [hexToRGB_roundTrip _ _ _ r0 r1 g0 g1 p0 p1]
  · unfold blendColorsHSV
    rw [blendedHSV_one]
    obtain ⟨⟨r0, r1⟩, ⟨g0, g1⟩, p0, p1⟩ := hexToRGB_bounds s2
    simp only [hexToHSV]
    rw [hexToRGB_roundTrip _ _ _ r0 r1 g0 g1 p0 p1]

theorem claim_C4_witness :
    validHexColor "#ff0000" = true ∧ validHexColor "#00ff00" = true ∧
      hexToRGB (blendColorsHSV "#ff0000" "#00ff00" 0) = hexToRGB "#ff0000" ∧
      hexToRGB (blendColorsHSV "#ff0000" "#00ff00" 1) = hexToRGB "#00ff00" ∧
      hexToRGB (hsvToHex (rgbToHSV ((17 : ℤ) : ℚ) ((34 : ℤ) : ℚ) ((255 : ℤ) : ℚ)))
        = RGB.mk 17 34 255 ∧
      -180 ≤ hueDelta (hexToHSV "#ff0000").h (hexToHSV "#00ff00").h ∧
      hueDelta (hexToHSV "#ff0000").h (hexToHSV "#00ff00").h ≤ 180 := by
  have hc := claim_C4 "#ff0000" "#00ff00" (by decide) (by decide)
  exact ⟨by decide, by decide, hc.1, hc.2.1,
    hc.2.2.1 17 34 255 (by norm_num) (by norm_num) (by norm_num) (by norm_num)
      (by norm_num) (by norm_num),
    hc.2.2.2.1, hc.2.2.2.2⟩

/-- C8: for valid hex inputs and any ratio in [0,1] the blended color is
a valid 24-bit RGB color: the normalized hue lies in [0,360), each
rounded R, G, B component lies in [0,255], and the returned string is
a hash sign followed by exactly six hexadecimal digits (in particular it
is itself accepted by the hex parser). -/
theorem claim_C8 (s1 s2 : String) (h1 : validHexColor s1 = true)
    (h2 : validHexColor s2 = true) (ratio : ℚ)
    (hr0 : 0 ≤ ratio) (hr1 : ratio ≤ 1) :
    (0 ≤ (blendedHSV s1 s2 ratio).h ∧ (blendedHSV s1 s2 ratio).h < 360) ∧
      ((0 ≤ (hsvToRGB (blendedHSV s1 s2 ratio).h (blendedHSV s1 s2 ratio).s
            (blendedHSV s1 s2 ratio).v).r ∧
          (hsvToRGB (blendedHSV s1 s2 ratio).h (blendedHSV s1 s2 ratio).s
            (blendedHSV s1 s2 ratio).v).r ≤ 255) ∧
        (0 ≤ (hsvToRGB (blendedHSV s1 s2 ratio).h (blendedHSV s1 s2 ratio).s
            (blendedHSV s1 s2 ratio).v).g ∧
          (hsvToRGB (blendedHSV s1 s2 ratio).h (blendedHSV s1 s2 ratio).s
            (blendedHSV s1 s2 ratio).v).g ≤ 255) ∧
        (0 ≤ (hsvToRGB (blendedHSV s1 s2 ratio).h (blendedHSV s1 s2 ratio).s
            (blendedHSV s1 s2 ratio).v).b ∧
          (hsvToRGB (blendedHSV s1 s2 ratio).h (blendedHSV s1 s2 ratio).s
            (blendedHSV s1 s2 ratio).v).b ≤ 255)) ∧
      (∃ d1 d2 d3 d4 d5 d6 : Char,
        blendColorsHSV s1 s2 ratio = String.mk ['#', d1, d2, d3, d4, d5, d6] ∧
          (isHexChar d1 && isHexChar d2 && isHexChar d3 && isHexChar d4 &&
            isHexChar d5 && isHexChar d6) = true) ∧
      validHexColor (blendColorsHSV s1 s2 ratio) = true := by
  obtain ⟨⟨p1, p2⟩, ⟨p3, p4⟩, p5, p6⟩ := blendedHSV_bounds s1 s2 ratio hr0 hr1
  obtain ⟨⟨a1, a2⟩, ⟨b1, b2⟩, c1, c2⟩ :=
    hsvToRGB_bounds (blendedHSV s1 s2 ratio).h (blendedHSV s1 s2 ratio).s
      (blendedHSV s1 s2 ratio).v p1 p2 p3 p4 p5 p6
  set c := hsvToRGB (blendedHSV s1 s2 ratio).h (blendedHSV s1 s2 ratio).s
    (blendedHSV s1 s2 ratio).v with hc
  have hshape : blendColorsHSV s1 s2 ratio = String.mk ['#',
      hexDigitChar (c.r.toNat / 16), hexDigitChar (c.r.toNat % 16),
      hexDigitChar (c.g.toNat / 16), hexDigitChar (c.g.toNat % 16),
      hexDigitChar (c.b.toNat / 16), hexDigitChar (c.b.toNat % 16)] := by
    unfold blendColorsHSV
    rw [hsvToHex_shape _ p1 p2 p3 p4 p5 p6]
  have hhex : (isHexChar (hexDigitChar (c.r.toNat / 16)) &&
      isHexChar (hexDigitChar (c.r.toNat % 16)) &&
      isHexChar (hexDigitChar (c.g.toNat / 16)) &&
      isHexChar (hexDigitChar (c.g.toNat % 16)) &&
      isHexChar (hexDigitChar (c.b.toNat / 16)) &&
      isHexChar (hexDigitChar (c.b.toNat % 16))) = true := by
    rw [(hexDigitChar_spec _ (show c.r.toNat / 16 < 16 by omega)).1,
      (hexDigitChar_spec _ (show c.r.toNat % 16 < 16 by omega)).1,
      (hexDigitChar_spec _ (show c.g.toNat / 16 < 16 by omega)).1,
      (hexDigitChar_spec _ (show c.g.toNat % 16 < 16 by omega)).1,
      (hexDigitChar_spec _ (show c.b.toNat / 16 < 16 by omega)).1,
      (hexDigitChar_spec _ (show c.b.toNat % 16 < 16 by omega)).1]
    rfl
  refine ⟨⟨p1, p2⟩, ⟨⟨a1, a2⟩, ⟨b1, b2⟩, c1, c2⟩,
    ⟨_, _, _, _, _, _, hshape, hhex⟩, ?_⟩
  rw [hshape]
  exact validHexColor_mk6 _ _ _ _ _ _ hhex

theorem claim_C8_witness :
    validHexColor "#ff0000" = true ∧ validHexColor "#00ff00" = true ∧
      (0 : ℚ) ≤ 1 / 2 ∧ (1 / 2 : ℚ) ≤ 1 ∧
      (0 ≤ (blendedHSV "#ff0000" "#00ff00" (1 / 2)).h ∧
        (blendedHSV "#ff0000" "#00ff00" (1 / 2)).h < 360) ∧
      validHexColor (blendColorsHSV "#ff0000" "#00ff00" (1 / 2)) = true := by
  have hc := claim_C8 "#ff0000" "#00ff00" (by decide) (by decide) (1 / 2)
    (by norm_num) (by norm_num)
  exact ⟨by decide, by decide, by norm_num, by norm_num, hc.1, hc.2.2.2⟩
